import Mathlib

/-!
Verification of the GATOR muni-bond query layer
(`src/streamlit_app/streamlit_app.py`) against its specification.

The development shallowly embeds the program's core:
  * the five SQL query-text builders `q1` .. `q5` and `build_state_filter`
    (exact string construction, as in the Python f-strings);
  * the relational semantics of the generated queries (`q2_exec`, `q3_exec`,
    `q4_exec`, `q5_exec`), read off the SQL text with standard SQL meaning,
    with the one point SQL leaves open (`ROW_NUMBER` on tied dates) resolved
    by stable input order, as the spec directs;
  * the execution adapter `run_query`;
  * the local fallback path of `load_visual_data` (pandas merges, the
    stable latest-rating selection, the derived `time_to_maturity_years`
    column and its row filter).

Dates are modelled as calendar dates with the standard civil-calendar day
count, so both day differences (`time_to_maturity_years`) and calendar-month
buckets (`TO_CHAR(.., 'YYYY-MM')`, `DATE_TRUNC('MONTH', ..)`, pandas
`resample("MS")`) are available. Numeric columns are rationals; SQL
`ROUND(x, 2)` is `round (x * 100) / 100`. Nullable columns are `Option`.
-/

namespace Gator

/-! ## Calendar dates -/

/-- A calendar date, as stored in the `*_date` columns. The pair
`(year, month)` is the month bucket rendered by `TO_CHAR(d, 'YYYY-MM')`. -/
structure Date where
  year : Nat
  month : Nat
  day : Nat
  deriving DecidableEq, Repr

/-- Day serial number of a civil date (the standard days-from-civil
computation); differences of `days` are the day counts that
`(maturity_date - trade_date).dt.days` yields in the fallback path. -/
def Date.days (dt : Date) : Nat :=
  let y := if dt.month ≤ 2 then dt.year - 1 else dt.year
  let era := y / 400
  let yoe := y % 400
  let mp := if 2 < dt.month then dt.month - 3 else dt.month + 9
  let doy := (153 * mp + 2) / 5 + dt.day - 1
  let doe := yoe * 365 + yoe / 4 - yoe / 100 + doy
  era * 146097 + doe

/-- Chronological comparison of dates (`trade_date BETWEEN .. AND ..`,
pandas datetime order). -/
def Date.le (a b : Date) : Bool := decide (a.days ≤ b.days)

/-- The `(year, month)` bucket used by `TO_CHAR(d, 'YYYY-MM')` and
`DATE_TRUNC('MONTH', d)`: both identify a date's calendar month. -/
def Date.monthKey (dt : Date) : Nat × Nat := (dt.year, dt.month)

/-! ## Data model (§3 of the spec; the six tables read by the program) -/

/-- A row of `bonds`: `purpose_id` and `coupon_rate` are nullable
(`LEFT JOIN bond_purposes`, `WHERE b.coupon_rate IS NOT NULL`). -/
structure Bond where
  bond_id : String
  issuer_id : String
  purpose_id : Option String
  coupon_rate : Option Rat
  issue_date : Date
  maturity_date : Date
  deriving DecidableEq, Repr

/-- A row of `issuers`; `state_code` is nullable. -/
structure Issuer where
  issuer_id : String
  name : String
  state_code : Option String
  deriving DecidableEq, Repr

/-- A row of `bond_purposes`: `code` (nullable, coalesced to UNSPEC in the
queries) and `purpose_category` (used by the fallback merge). -/
structure Purpose where
  purpose_id : String
  code : Option String
  purpose_category : String
  deriving DecidableEq, Repr

/-- A row of `trades`. The local CSV names the price column `price` and the
fallback renames it `trade_price`; the value is the same. -/
structure Trade where
  bond_id : String
  trade_date : Date
  price : Rat
  quantity : Int
  yield_pct : Rat
  buyer_type : String
  deriving DecidableEq, Repr

/-- A row of `credit_ratings` (the local CSV calls the code column
`rating`; the live table `rating_code`). -/
structure CreditRating where
  bond_id : String
  rating_code : String
  rating_date : Date
  deriving DecidableEq, Repr

/-- A row of `economic_indicators` as the live query reads it
(`indicator_name`, `geo_code`, `period_start_date`, `value`). -/
structure EconIndicator where
  indicator_name : String
  geo_code : String
  period_start_date : Date
  value : Rat
  deriving DecidableEq, Repr

/-- The six tables the program reads. -/
structure Dataset where
  bonds : List Bond
  trades : List Trade
  issuers : List Issuer
  purposes : List Purpose
  ratings : List CreditRating
  econ : List EconIndicator
  deriving Repr

/-! ## The state filter (`build_state_filter`, lines 176-180)

```python
def build_state_filter(states):
    if not states or len(states) == len(state_options):
        return ""
    quoted = ", ".join(f"'{s}'" for s in states)
    return f" AND i.state_code IN ({quoted})"
```

`state_options` is a module-level list; the embedding passes it explicitly. -/

/-- `", ".join(f"'{s}'" for s in states)`. -/
def joinQuoted : List String → String
  | [] => ""
  | [s] => "'" ++ s ++ "'"
  | s :: rest => "'" ++ s ++ "'" ++ ", " ++ joinQuoted rest

/-- The textual state filter fragment. -/
def build_state_filter (state_options states : List String) : String :=
  if states = [] ∨ states.length = state_options.length then ""
  else " AND i.state_code IN (" ++ joinQuoted states ++ ")"

/-- The semantic counterpart of the fragment: whether an issuer row with
state `sc` passes the (possibly absent) state predicate. A `NULL` state
never passes an active `IN` list. -/
def statePred (state_options states : List String) (sc : Option String) : Bool :=
  if states = [] ∨ states.length = state_options.length then true
  else match sc with
    | some s => states.contains s
    | none => false

/-! ## Query text builders (`q1` .. `q5`, lines 183-302)

Each builder is the exact f-string of the source, with the date bounds
rendered in ISO form as Python renders `datetime.date`. -/

/-- Zero-padded two-digit rendering (month and day of an ISO date). -/
def pad2 (n : Nat) : String := if n < 10 then "0" ++ toString n else toString n

/-- Zero-padded four-digit rendering (year of an ISO date). -/
def pad4 (n : Nat) : String :=
  if n < 10 then "000" ++ toString n
  else if n < 100 then "00" ++ toString n
  else if n < 1000 then "0" ++ toString n
  else toString n

/-- `str(date)` in Python: ISO `YYYY-MM-DD`. -/
def isoDate (d : Date) : String :=
  pad4 d.year ++ "-" ++ pad2 d.month ++ "-" ++ pad2 d.day

/-- The date-range predicate text every dated query interpolates:
`t.trade_date BETWEEN '{start}' AND '{end}'`. -/
def dateRangeText (start stop : Date) : String :=
  "t.trade_date BETWEEN '" ++ isoDate start ++ "' AND '" ++ isoDate stop ++ "'"

/-- Q1 text up to (and including) `WHERE `. -/
def q1Head : String :=
  "\n    SELECT\n      b.bond_id,\n      i.name        AS issuer_name,\n      i.state_code  AS state,\n      COALESCE(p.code, 'UNSPEC') AS purpose_category,\n      ROUND(AVG(t.price), 2)     AS avg_trade_price,\n      SUM(t.quantity)            AS total_quantity\n    FROM trades t\n    JOIN bonds b          ON t.bond_id  = b.bond_id\n    JOIN issuers i        ON b.issuer_id = i.issuer_id\n    LEFT JOIN bond_purposes p ON b.purpose_id = p.purpose_id\n    WHERE "

/-- Q1 text between the state filter and the row limit. -/
def q1Mid : String :=
  "\n    GROUP BY b.bond_id, issuer_name, state, purpose_category\n    ORDER BY total_quantity DESC, avg_trade_price DESC\n    LIMIT "

/-- Query 1 text (top traded bonds), lines 183-201. -/
def q1 (state_options states : List String) (start stop : Date) (limit : Nat) : String :=
  q1Head ++ dateRangeText start stop ++ build_state_filter state_options states
    ++ q1Mid ++ toString limit ++ ";\n    "

/-- Q2 text up to (and including) `WHERE `. -/
def q2Head : String :=
  "\n    SELECT\n      i.state_code                       AS state,\n      COALESCE(p.code, 'UNSPEC')         AS purpose_category,\n      COUNT(DISTINCT b.bond_id)          AS bonds_traded,\n      SUM(t.quantity)                    AS total_quantity,\n      ROUND(AVG(t.price), 2)             AS avg_trade_price\n    FROM trades t\n    JOIN bonds b          ON t.bond_id  = b.bond_id\n    JOIN issuers i        ON b.issuer_id = i.issuer_id\n    LEFT JOIN bond_purposes p ON b.purpose_id = p.purpose_id\n    WHERE "

/-- Q2 text between the state filter and the row limit. -/
def q2Mid : String :=
  "\n    GROUP BY state, purpose_category\n    HAVING SUM(t.quantity) >= 100\n    ORDER BY total_quantity DESC\n    LIMIT "

/-- Query 2 text (state-purpose hotspots), lines 204-222. -/
def q2 (state_options states : List String) (start stop : Date) (limit : Nat) : String :=
  q2Head ++ dateRangeText start stop ++ build_state_filter state_options states
    ++ q2Mid ++ toString limit ++ ";\n    "

/-- Q3 text up to (and including) `WHERE 1=1`. -/
def q3Head : String :=
  "\n    WITH ranked AS (\n      SELECT\n        b.bond_id,\n        i.name AS issuer_name,\n        i.state_code AS state,\n        cr.rating_code,\n        cr.rating_date,\n        ROW_NUMBER() OVER (PARTITION BY b.bond_id ORDER BY cr.rating_date DESC) AS rn_desc,\n        ROW_NUMBER() OVER (PARTITION BY b.bond_id ORDER BY cr.rating_date ASC)  AS rn_asc\n      FROM bonds b\n      JOIN issuers i        ON b.issuer_id = i.issuer_id\n      JOIN credit_ratings cr ON cr.bond_id = b.bond_id\n      WHERE 1=1"

/-- Q3 text between the state filter and the row limit. -/
def q3Mid : String :=
  "\n    )\n    SELECT\n      bond_id,\n      issuer_name,\n      state,\n      MAX(CASE WHEN rn_desc = 1 THEN rating_code END) AS latest_rating,\n      MAX(CASE WHEN rn_asc  = 1 THEN rating_code END) AS first_rating,\n      MAX(CASE WHEN rn_desc = 1 THEN rating_date END) AS latest_rating_date\n    FROM ranked\n    GROUP BY bond_id, issuer_name, state\n    HAVING latest_rating <> first_rating\n    LIMIT "

/-- Query 3 text (rating migration), lines 225-253. Note: its `WHERE` clause
is `1=1` plus the optional state filter; no date predicate. -/
def q3 (state_options states : List String) (limit : Nat) : String :=
  q3Head ++ build_state_filter state_options states ++ q3Mid ++ toString limit ++ ";\n    "

/-- Q4 text up to (and including) `WHERE `. -/
def q4Head : String :=
  "\n    SELECT\n      TO_CHAR(t.trade_date, 'YYYY-MM') AS trade_month,\n      COUNT(*)                         AS trades_count,\n      SUM(t.quantity)                  AS total_quantity,\n      ROUND(AVG(t.price), 2)           AS avg_trade_price\n    FROM trades t\n    JOIN bonds b ON t.bond_id = b.bond_id\n    JOIN issuers i ON b.issuer_id = i.issuer_id\n    WHERE "

/-- Q4 text between the state filter and the row limit. -/
def q4Mid : String :=
  "\n    GROUP BY trade_month\n    ORDER BY trade_month\n    LIMIT "

/-- Query 4 text (monthly trend), lines 256-271. -/
def q4 (state_options states : List String) (start stop : Date) (limit : Nat) : String :=
  q4Head ++ dateRangeText start stop ++ build_state_filter state_options states
    ++ q4Mid ++ toString limit ++ ";\n    "

/-- Q5 text up to (and including) the `AND ` before its date predicate. -/
def q5Head : String :=
  "\n    WITH ten_yr AS (\n      SELECT\n        geo_code,\n        DATE_TRUNC('MONTH', period_start_date) AS period_month,\n        value AS treasury_10yr\n      FROM economic_indicators\n      WHERE indicator_name = 'TREASURY_10YR'\n    )\n    SELECT\n      i.state_code                               AS state,\n      TO_CHAR(t.trade_date, 'YYYY-MM')           AS trade_month,\n      ROUND(AVG(b.coupon_rate), 2)               AS avg_coupon_rate,\n      ROUND(AVG(ten_yr.treasury_10yr), 2)        AS avg_treasury_10yr,\n      ROUND(AVG(b.coupon_rate - ten_yr.treasury_10yr), 2) AS avg_coupon_spread\n    FROM trades t\n    JOIN bonds b   ON t.bond_id = b.bond_id\n    JOIN issuers i ON b.issuer_id = i.issuer_id\n    JOIN ten_yr    ON ten_yr.geo_code = i.state_code\n                  AND ten_yr.period_month = DATE_TRUNC('MONTH', t.trade_date)\n    WHERE b.coupon_rate IS NOT NULL\n      AND "

/-- Q5 text between the state filter and the row limit. -/
def q5Mid : String :=
  "\n    GROUP BY state, trade_month\n    HAVING COUNT(*) >= 10\n    ORDER BY avg_coupon_spread DESC\n    LIMIT "

/-- Query 5 text (coupon spread vs 10Y treasury), lines 274-302. -/
def q5 (state_options states : List String) (start stop : Date) (limit : Nat) : String :=
  q5Head ++ dateRangeText start stop ++ build_state_filter state_options states
    ++ q5Mid ++ toString limit ++ ";\n    "

/-! ## Substring containment

`strHas hay needle` decides whether `needle` occurs contiguously in `hay`;
it is the notion of "the builder's output contains the predicate" used by
the interpolation claims. -/

/-- Helper for `leadsWith`, recursing on the needle. -/
def leadsFrom : List Char → List Char → Bool
  | [], _ => true
  | _ :: _, [] => false
  | d :: ds, c :: cs => decide (c = d) && leadsFrom ds cs

/-- Whether `hay` starts with `needle` (on character lists). -/
def leadsWith (hay needle : List Char) : Bool := leadsFrom needle hay

/-- Whether `needle` occurs contiguously somewhere in `hay`. -/
def hasRun : List Char → List Char → Bool
  | [], needle => leadsWith [] needle
  | c :: t, needle => leadsWith (c :: t) needle || hasRun t needle

/-- String-level contiguous containment. -/
def strHas (hay needle : String) : Bool := hasRun hay.data needle.data

theorem data_append (a b : String) : (a ++ b).data = a.data ++ b.data := rfl

theorem leadsWith_nil (hay : List Char) : leadsWith hay [] = true := rfl

theorem hasRun_nil (hay : List Char) : hasRun hay [] = true := by
  cases hay <;> simp [hasRun, leadsWith_nil]

theorem leadsWith_self_append (n t : List Char) : leadsWith (n ++ t) n = true := by
  induction n with
  | nil => rfl
  | cons c cs ih => simpa [leadsWith, leadsFrom] using ih

theorem hasRun_of_leadsWith {hay n : List Char} (h : leadsWith hay n = true) :
    hasRun hay n = true := by
  cases hay with
  | nil => simpa [hasRun] using h
  | cons c t => simp [hasRun, h]

theorem hasRun_append_left (a : List Char) {hay n : List Char}
    (h : hasRun hay n = true) : hasRun (a ++ hay) n = true := by
  induction a with
  | nil => simpa using h
  | cons c cs ih => simp [hasRun, ih]

theorem leadsWith_append_right {hay n : List Char} (b : List Char)
    (h : leadsWith hay n = true) : leadsWith (hay ++ b) n = true := by
  induction n generalizing hay with
  | nil => exact leadsWith_nil _
  | cons d ds ih =>
    cases hay with
    | nil => simp [leadsWith, leadsFrom] at h
    | cons c cs =>
      have h' : (decide (c = d) && leadsFrom ds cs) = true := h
      rw [Bool.and_eq_true] at h'
      show (decide (c = d) && leadsFrom ds (cs ++ b)) = true
      rw [Bool.and_eq_true]
      exact ⟨h'.1, ih h'.2⟩

theorem hasRun_append_right {hay n : List Char} (b : List Char)
    (h : hasRun hay n = true) : hasRun (hay ++ b) n = true := by
  induction hay with
  | nil =>
    cases n with
    | nil => exact hasRun_nil b
    | cons d ds => simp [hasRun, leadsWith, leadsFrom] at h
  | cons c cs ih =>
    simp [hasRun] at h
    rcases h with h | h
    · simpa [hasRun] using Or.inl (leadsWith_append_right b h)
    · simpa [hasRun] using Or.inr (ih h)

theorem hasRun_mid (a n b : List Char) : hasRun (a ++ (n ++ b)) n = true :=
  hasRun_append_left a (hasRun_of_leadsWith (leadsWith_self_append n b))

/-- Every member of the state list occurs contiguously in `joinQuoted`. -/
theorem hasRun_joinQuoted {s : String} {states : List String} (h : s ∈ states) :
    hasRun (joinQuoted states).data s.data = true := by
  induction states with
  | nil => cases h
  | cons a rest ih =>
    cases rest with
    | nil =>
      rcases List.mem_singleton.mp h with rfl
      show hasRun ("'" ++ s ++ "'").data s.data = true
      have e : ("'" ++ s ++ "'").data = "'".data ++ (s.data ++ "'".data) := by
        simp [data_append, List.append_assoc]
      rw [e]; exact hasRun_mid _ _ _
    | cons r rs =>
      cases h with
      | head =>
        show hasRun ("'" ++ s ++ "'" ++ ", " ++ joinQuoted (r :: rs)).data s.data = true
        have e : ("'" ++ s ++ "'" ++ ", " ++ joinQuoted (r :: rs)).data =
            "'".data ++ (s.data ++ ("'".data ++ ", ".data ++ (joinQuoted (r :: rs)).data)) := by
          simp [data_append, List.append_assoc]
        rw [e]; exact hasRun_mid _ _ _
      | tail _ hmem =>
        show hasRun ("'" ++ a ++ "'" ++ ", " ++ joinQuoted (r :: rs)).data s.data = true
        have e : ("'" ++ a ++ "'" ++ ", " ++ joinQuoted (r :: rs)).data =
            ("'".data ++ a.data ++ "'".data ++ ", ".data) ++ (joinQuoted (r :: rs)).data := by
          simp [data_append, List.append_assoc]
        rw [e]; exact hasRun_append_left _ (ih hmem)

/-- When the state filter is active, every listed state occurs contiguously
in the produced fragment. -/
theorem hasRun_build_state_filter {opts states : List String} {s : String}
    (hmem : s ∈ states) (hne : states ≠ []) (hlen : states.length ≠ opts.length) :
    strHas (build_state_filter opts states) s = true := by
  have hcond : ¬(states = [] ∨ states.length = opts.length) := by
    rintro (h | h) <;> [exact hne h; exact hlen h]
  show hasRun (build_state_filter opts states).data s.data = true
  rw [build_state_filter, if_neg hcond]
  have e : (" AND i.state_code IN (" ++ joinQuoted states ++ ")").data =
      " AND i.state_code IN (".data ++ ((joinQuoted states).data ++ ")".data) := by
    simp [data_append, List.append_assoc]
  rw [e]
  exact hasRun_append_left _ (hasRun_append_right _ (hasRun_joinQuoted hmem))

theorem str_append_assoc (a b c : String) : a ++ b ++ c = a ++ (b ++ c) :=
  congrArg String.mk (List.append_assoc a.data b.data c.data)

theorem leadsWith_self (l : List Char) : leadsWith l l = true := by
  induction l with
  | nil => rfl
  | cons c cs ih => simpa [leadsWith, leadsFrom] using ih

/-- A needle placed between two strings is found. -/
theorem strHas_mid_str (a n b : String) : strHas (a ++ n ++ b) n = true := by
  show hasRun (a ++ n ++ b).data n.data = true
  have e : (a ++ n ++ b).data = a.data ++ (n.data ++ b.data) := by
    simp [data_append, List.append_assoc]
  rw [e]; exact hasRun_mid _ _ _

/-- Containment spreads from a middle piece to the surrounding string. -/
theorem strHas_of_inner {inner s : String} (hin : strHas inner s = true)
    (a b : String) : strHas (a ++ inner ++ b) s = true := by
  show hasRun (a ++ inner ++ b).data s.data = true
  have e : (a ++ inner ++ b).data = a.data ++ (inner.data ++ b.data) := by
    simp [data_append, List.append_assoc]
  rw [e]; exact hasRun_append_left _ (hasRun_append_right _ hin)

/-! ## Claims C5, C6, C7: the filter interpolation -/

/-- The five state options of the sample dataset (the sidebar caption of the
app: CA, FL, IL, NY, TX). -/
def optsFix : List String := ["CA", "FL", "IL", "NY", "TX"]

set_option maxRecDepth 40000 in
/-- C5, counterexample: the claim says every builder's output contains a
predicate restricting `trade_date` to the FilterSet's date range, but the
text `q3` builds contains no occurrence of `trade_date` at all (its `WHERE`
clause is `1=1` plus the optional state filter). -/
theorem q3_text_lacks_trade_date :
    strHas (q3 optsFix ["CA"] 50) "trade_date" = false := by decide

/-- C5, amended: `q1`, `q2`, `q4` and `q5` interpolate the date-range
predicate `t.trade_date BETWEEN '<start>' AND '<stop>'` into their query
text, and all five builders interpolate every selected state verbatim when
a proper non-empty state subset is selected; `q3` interpolates only the
state filter and no date predicate. -/
theorem builders_interpolate_filters (opts states : List String)
    (start stop : Date) (limit : Nat) :
    (strHas (q1 opts states start stop limit) (dateRangeText start stop) = true ∧
     strHas (q2 opts states start stop limit) (dateRangeText start stop) = true ∧
     strHas (q4 opts states start stop limit) (dateRangeText start stop) = true ∧
     strHas (q5 opts states start stop limit) (dateRangeText start stop) = true) ∧
    (states ≠ [] → states.length ≠ opts.length → ∀ s ∈ states,
      strHas (q1 opts states start stop limit) s = true ∧
      strHas (q2 opts states start stop limit) s = true ∧
      strHas (q3 opts states limit) s = true ∧
      strHas (q4 opts states start stop limit) s = true ∧
      strHas (q5 opts states start stop limit) s = true) := by
  constructor
  · refine ⟨?_, ?_, ?_, ?_⟩
    · have e : q1 opts states start stop limit =
          q1Head ++ dateRangeText start stop ++ (build_state_filter opts states
            ++ (q1Mid ++ (toString limit ++ ";\n    "))) := by
        simp [q1, str_append_assoc]
      rw [e]; exact strHas_mid_str _ _ _
    · have e : q2 opts states start stop limit =
          q2Head ++ dateRangeText start stop ++ (build_state_filter opts states
            ++ (q2Mid ++ (toString limit ++ ";\n    "))) := by
        simp [q2, str_append_assoc]
      rw [e]; exact strHas_mid_str _ _ _
    · have e : q4 opts states start stop limit =
          q4Head ++ dateRangeText start stop ++ (build_state_filter opts states
            ++ (q4Mid ++ (toString limit ++ ";\n    "))) := by
        simp [q4, str_append_assoc]
      rw [e]; exact strHas_mid_str _ _ _
    · have e : q5 opts states start stop limit =
          q5Head ++ dateRangeText start stop ++ (build_state_filter opts states
            ++ (q5Mid ++ (toString limit ++ ";\n    "))) := by
        simp [q5, str_append_assoc]
      rw [e]; exact strHas_mid_str _ _ _
  · intro hne hlen s hs
    have hbsf : strHas (build_state_filter opts states) s = true :=
      hasRun_build_state_filter hs hne hlen
    refine ⟨?_, ?_, ?_, ?_, ?_⟩
    · have e : q1 opts states start stop limit =
          (q1Head ++ dateRangeText start stop) ++ build_state_filter opts states
            ++ (q1Mid ++ (toString limit ++ ";\n    ")) := by
        simp [q1, str_append_assoc]
      rw [e]; exact strHas_of_inner hbsf _ _
    · have e : q2 opts states start stop limit =
          (q2Head ++ dateRangeText start stop) ++ build_state_filter opts states
            ++ (q2Mid ++ (toString limit ++ ";\n    ")) := by
        simp [q2, str_append_assoc]
      rw [e]; exact strHas_of_inner hbsf _ _
    · have e : q3 opts states limit =
          q3Head ++ build_state_filter opts states
            ++ (q3Mid ++ (toString limit ++ ";\n    ")) := by
        simp [q3, str_append_assoc]
      rw [e]; exact strHas_of_inner hbsf _ _
    · have e : q4 opts states start stop limit =
          (q4Head ++ dateRangeText start stop) ++ build_state_filter opts states
            ++ (q4Mid ++ (toString limit ++ ";\n    ")) := by
        simp [q4, str_append_assoc]
      rw [e]; exact strHas_of_inner hbsf _ _
    · have e : q5 opts states start stop limit =
          (q5Head ++ dateRangeText start stop) ++ build_state_filter opts states
            ++ (q5Mid ++ (toString limit ++ ";\n    ")) := by
        simp [q5, str_append_assoc]
      rw [e]; exact strHas_of_inner hbsf _ _

/-- Witness for `builders_interpolate_filters` at a concrete input. -/
theorem builders_interpolate_filters_witness :
    strHas (q1 optsFix ["CA"] ⟨2024, 1, 1⟩ ⟨2024, 12, 31⟩ 50)
      (dateRangeText ⟨2024, 1, 1⟩ ⟨2024, 12, 31⟩) = true ∧
    strHas (q3 optsFix ["CA"] 50) "CA" = true := by
  have h := builders_interpolate_filters optsFix ["CA"] ⟨2024, 1, 1⟩ ⟨2024, 12, 31⟩ 50
  exact ⟨h.1.1, (h.2 (by decide) (by decide) "CA" (by decide)).2.2.1⟩

/-- C6, counterexample: `build_state_filter` does not validate or escape
its inputs. A "state" containing single quotes is interpolated verbatim,
and the produced fragment breaks out of the quoted IN-list: the result
reads `... IN ('X') OR ('1'='1')`. -/
theorem build_state_filter_injection :
    build_state_filter optsFix ["X') OR ('1'='1"] =
      " AND i.state_code IN ('X') OR ('1'='1')" ∧
    strHas "X') OR ('1'='1" "'" = true := by
  constructor
  · decide
  · decide

/-- C6, amended: `build_state_filter` interpolates every element of a
proper non-empty state list verbatim into the fragment — no rejection, no
escaping. Injection safety is not established by this function; it relies
on callers passing only multiselect-restricted values. -/
theorem build_state_filter_verbatim (opts states : List String) (s : String)
    (hmem : s ∈ states) (hne : states ≠ []) (hlen : states.length ≠ opts.length) :
    strHas (build_state_filter opts states) s = true :=
  hasRun_build_state_filter hmem hne hlen

/-- Witness for `build_state_filter_verbatim` at a concrete input. -/
theorem build_state_filter_verbatim_witness :
    strHas (build_state_filter optsFix ["CA", "NY"]) "CA" = true :=
  build_state_filter_verbatim optsFix ["CA", "NY"] "CA" (by decide) (by decide)
    (by decide)

/-- C7: over duplicate-free selections from the known option list,
`build_state_filter` yields the canonical no-filter representation (the
empty string) exactly for the empty and the full selection, and an IN-list
over exactly the selected states for every proper non-empty selection. -/
theorem build_state_filter_canonical (opts states : List String)
    (hopts : opts.Nodup) (hnd : states.Nodup) (hsub : ∀ s ∈ states, s ∈ opts) :
    ((states = [] ∨ states.toFinset = opts.toFinset) →
      build_state_filter opts states = "") ∧
    (states ≠ [] → states.toFinset ≠ opts.toFinset →
      build_state_filter opts states =
        " AND i.state_code IN (" ++ joinQuoted states ++ ")") := by
  constructor
  · rintro (rfl | heq)
    · simp [build_state_filter]
    · have hlen : states.length = opts.length := by
        rw [← List.toFinset_card_of_nodup hnd, heq, List.toFinset_card_of_nodup hopts]
      simp [build_state_filter, hlen]
  · intro hne hneq
    have hlen : states.length ≠ opts.length := by
      intro h
      apply hneq
      have hssub : states.toFinset ⊆ opts.toFinset := by
        intro x hx
        exact List.mem_toFinset.mpr (hsub x (List.mem_toFinset.mp hx))
      refine Finset.eq_of_subset_of_card_le hssub ?_
      rw [List.toFinset_card_of_nodup hnd, List.toFinset_card_of_nodup hopts]
      exact le_of_eq h.symm
    rw [build_state_filter, if_neg]
    rintro (h | h)
    · exact hne h
    · exact hlen h

/-- Witness for `build_state_filter_canonical` at concrete inputs: a proper
subset yields the IN-list, the full selection yields the empty string. -/
theorem build_state_filter_canonical_witness :
    build_state_filter optsFix ["CA", "NY"] = " AND i.state_code IN ('CA', 'NY')" ∧
    build_state_filter optsFix ["CA", "FL", "IL", "NY", "TX"] = "" := by
  have h1 := build_state_filter_canonical optsFix ["CA", "NY"]
    (by decide) (by decide) (by decide)
  have h2 := build_state_filter_canonical optsFix ["CA", "FL", "IL", "NY", "TX"]
    (by decide) (by decide) (by decide)
  exact ⟨h1.2 (by decide) (by decide), h2.1 (Or.inr (by decide))⟩

/-! ## Stable sorting

`isortBy` is a stable insertion sort: it is the embedding of every sort the
program performs — pandas `sort_values` on several columns (numpy lexsort,
stable) and SQL `ORDER BY`. Stability matters for the fallback's
latest-rating selection (`groupby.tail(1)` after a stable sort). -/

section Sorting

variable {α : Type _} (le : α → α → Bool)

/-- Insert `x` before the first element `y` with `le x y`; on ties the
incoming element goes first, which makes the fold below stable. -/
def insertLe (x : α) : List α → List α
  | [] => [x]
  | y :: ys => if le x y then x :: y :: ys else y :: insertLe x ys

/-- Stable insertion sort by a boolean `le`. -/
def isortBy (l : List α) : List α := l.foldr (insertLe le) []

theorem insertLe_perm (x : α) (l : List α) : List.Perm (insertLe le x l) (x :: l) := by
  induction l with
  | nil => exact List.Perm.refl _
  | cons y ys ih =>
    by_cases h : le x y = true
    · simp [insertLe, h]
    · rw [insertLe, if_neg h]
      exact (ih.cons y).trans (List.Perm.swap x y ys)

theorem isortBy_perm (l : List α) : List.Perm (isortBy le l) l := by
  induction l with
  | nil => exact List.Perm.refl _
  | cons a l ih => exact ((insertLe_perm le a _).trans (ih.cons a))

theorem mem_isortBy {x : α} {l : List α} : x ∈ isortBy le l ↔ x ∈ l :=
  (isortBy_perm le l).mem_iff

theorem sorted_insertLe
    (htot : ∀ a b, le a b = false → le b a = true)
    (htrans : ∀ a b c, le a b = true → le b c = true → le a c = true)
    (x : α) {l : List α} (hl : List.Sorted (fun a b => le a b = true) l) :
    List.Sorted (fun a b => le a b = true) (insertLe le x l) := by
  induction l with
  | nil => simp [insertLe]
  | cons y ys ih =>
    by_cases h : le x y = true
    · rw [insertLe, if_pos h]
      refine List.sorted_cons.mpr ⟨?_, hl⟩
      intro b hb
      rcases List.mem_cons.mp hb with rfl | hb'
      · exact h
      · exact htrans x y b h ((List.sorted_cons.mp hl).1 b hb')
    · rw [insertLe, if_neg h]
      refine List.sorted_cons.mpr ⟨?_, ih (List.sorted_cons.mp hl).2⟩
      intro b hb
      rcases List.mem_cons.mp ((insertLe_perm le x ys).mem_iff.mp hb) with rfl | hb'
      · exact htot _ y (Bool.not_eq_true _ ▸ h)
      · exact (List.sorted_cons.mp hl).1 b hb'

theorem sorted_isortBy
    (htot : ∀ a b, le a b = false → le b a = true)
    (htrans : ∀ a b c, le a b = true → le b c = true → le a c = true)
    (l : List α) :
    List.Sorted (fun a b => le a b = true) (isortBy le l) := by
  induction l with
  | nil => simp [isortBy]
  | cons a l ih => exact sorted_insertLe le htot htrans a ih

/-- Inserting an element of a mutually-`le` class puts it in front of the
class members already present. -/
theorem filter_insertLe_pos (p : α → Bool) (x : α) (l : List α)
    (hx : p x = true) (hcls : ∀ y, p y = true → le x y = true) :
    (insertLe le x l).filter p = x :: l.filter p := by
  induction l with
  | nil => simp [insertLe, hx]
  | cons y ys ih =>
    by_cases h : le x y = true
    · rw [insertLe, if_pos h]
      simp [hx]
    · have hpy : p y = false := by
        cases hp : p y
        · rfl
        · exact absurd (hcls y hp) (by simp [h])
      rw [insertLe, if_neg h]
      simp [hpy, ih]

theorem filter_insertLe_neg (p : α → Bool) (x : α) (l : List α)
    (hx : p x = false) :
    (insertLe le x l).filter p = l.filter p := by
  induction l with
  | nil => simp [insertLe, hx]
  | cons y ys ih =>
    by_cases h : le x y = true
    · rw [insertLe, if_pos h]
      simp [hx]
    · rw [insertLe, if_neg h]
      cases hp : p y <;> simp [hp, ih]

/-- Stability: filtering the sorted list to a mutually-`le` class gives the
class in input order. -/
theorem filter_isortBy (p : α → Bool) (l : List α)
    (hcls : ∀ a b, p a = true → p b = true → le a b = true) :
    (isortBy le l).filter p = l.filter p := by
  induction l with
  | nil => rfl
  | cons a l ih =>
    show (insertLe le a (isortBy le l)).filter p = (a :: l).filter p
    cases hpa : p a
    · rw [filter_insertLe_neg le p a _ hpa, ih]
      simp [hpa]
    · rw [filter_insertLe_pos le p a _ hpa (fun y hy => hcls a y hpa hy), ih]
      simp [hpa]

end Sorting

/-! ## The fallback's latest-rating selection (lines 128-133)

```python
latest = (
    ratings.sort_values(["bond_id", "rating_date"])
    .groupby("bond_id")
    .tail(1)[["bond_id", "rating"]]
    .rename(columns={"rating": "latest_rating"})
)
```

pandas `sort_values` on several columns uses `numpy.lexsort`, a stable
sort; `isortBy ratingKeyLe` is that stable sort. `groupby(..).tail(1)`
keeps the last row of each (contiguous, since sorted) `bond_id` group:
`lastOfRuns`. -/

theorem string_data_lt_iff {a b : String} : a.data < b.data ↔ a < b :=
  String.lt_iff_toList_lt.symm

/-- The `(bond_id, rating_date)` lexicographic sort key. The bond ids are
compared as character lists (the same lexicographic order as `<` on
`String`, kept computable for the kernel). -/
def ratingKeyLe (a b : CreditRating) : Bool :=
  decide (a.bond_id.data < b.bond_id.data) ||
    (decide (a.bond_id = b.bond_id) && decide (a.rating_date.days ≤ b.rating_date.days))

theorem ratingKeyLe_iff {a b : CreditRating} :
    ratingKeyLe a b = true ↔
      (a.bond_id < b.bond_id ∨
        (a.bond_id = b.bond_id ∧ a.rating_date.days ≤ b.rating_date.days)) := by
  rw [ratingKeyLe]
  simp only [Bool.or_eq_true, Bool.and_eq_true, decide_eq_true_eq]
  rw [string_data_lt_iff]

theorem ratingKeyLe_refl (a : CreditRating) : ratingKeyLe a a = true := by
  simp [ratingKeyLe]

theorem ratingKeyLe_tot (a b : CreditRating) (h : ratingKeyLe a b = false) :
    ratingKeyLe b a = true := by
  have hn : ¬(a.bond_id < b.bond_id ∨
      (a.bond_id = b.bond_id ∧ a.rating_date.days ≤ b.rating_date.days)) := by
    rw [← ratingKeyLe_iff, h]; simp
  rw [ratingKeyLe_iff]
  rcases lt_trichotomy a.bond_id b.bond_id with hlt | heq | hgt
  · exact absurd (Or.inl hlt) hn
  · refine Or.inr ⟨heq.symm, ?_⟩
    have : ¬ a.rating_date.days ≤ b.rating_date.days := fun hd =>
      hn (Or.inr ⟨heq, hd⟩)
    omega
  · exact Or.inl hgt

theorem ratingKeyLe_trans (a b c : CreditRating) (h1 : ratingKeyLe a b = true)
    (h2 : ratingKeyLe b c = true) : ratingKeyLe a c = true := by
  rw [ratingKeyLe_iff] at h1 h2 ⊢
  rcases h1 with h1l | ⟨h1e, h1d⟩ <;> rcases h2 with h2l | ⟨h2e, h2d⟩
  · exact Or.inl (lt_trans h1l h2l)
  · exact Or.inl (lt_of_lt_of_le h1l (le_of_eq h2e))
  · exact Or.inl (lt_of_le_of_lt (le_of_eq h1e) h2l)
  · exact Or.inr ⟨h1e.trans h2e, le_trans h1d h2d⟩

theorem ratingKeyLe_bond_le {a b : CreditRating} (h : ratingKeyLe a b = true) :
    a.bond_id ≤ b.bond_id := by
  rcases ratingKeyLe_iff.mp h with hl | ⟨he, _⟩
  · exact le_of_lt hl
  · exact le_of_eq he

theorem ratingKeyLe_days {a b : CreditRating} (h : ratingKeyLe a b = true)
    (he : a.bond_id = b.bond_id) : a.rating_date.days ≤ b.rating_date.days := by
  rcases ratingKeyLe_iff.mp h with hl | ⟨_, hd⟩
  · exact absurd (he ▸ hl) (lt_irrefl _)
  · exact hd

/-- The last row of each contiguous run of equal `bond_id`
(`groupby("bond_id").tail(1)` on a frame sorted by `bond_id`). -/
def lastOfRuns : List CreditRating → List CreditRating
  | [] => []
  | [r] => [r]
  | r1 :: r2 :: rest =>
    if r1.bond_id = r2.bond_id then lastOfRuns (r2 :: rest)
    else r1 :: lastOfRuns (r2 :: rest)

/-- The latest-rating table of the fallback path: one `(bond_id, rating)`
pair per bond, chosen by stable sort then last-of-group. -/
def latestPerBond (ratings : List CreditRating) : List (String × String) :=
  (lastOfRuns (isortBy ratingKeyLe ratings)).map fun r => (r.bond_id, r.rating_code)

theorem mem_of_mem_lastOfRuns : ∀ {L : List CreditRating} {r : CreditRating},
    r ∈ lastOfRuns L → r ∈ L := by
  intro L
  induction L with
  | nil => intro r hr; simp [lastOfRuns] at hr
  | cons r1 tl ih =>
    cases tl with
    | nil =>
      intro r hr
      simpa [lastOfRuns] using hr
    | cons r2 rest =>
      intro r hr
      by_cases he : r1.bond_id = r2.bond_id
      · rw [lastOfRuns, if_pos he] at hr
        exact List.mem_cons_of_mem r1 (ih hr)
      · rw [lastOfRuns, if_neg he] at hr
        rcases List.mem_cons.mp hr with rfl | hr'
        · exact List.mem_cons_self _ _
        · exact List.mem_cons_of_mem r1 (ih hr')

/-- In a sorted list whose first two bond ids differ, no later row carries
the first row's bond id. -/
theorem no_bond_in_tail {r1 r2 : CreditRating} {rest : List CreditRating}
    (hs : List.Sorted (fun a b => ratingKeyLe a b = true) (r1 :: r2 :: rest))
    (hne : r1.bond_id ≠ r2.bond_id) :
    ∀ v ∈ r2 :: rest, v.bond_id ≠ r1.bond_id := by
  intro v hv
  have h12 : ratingKeyLe r1 r2 = true :=
    (List.sorted_cons.mp hs).1 r2 (List.mem_cons_self _ _)
  have hb12 : r1.bond_id < r2.bond_id := lt_of_le_of_ne (ratingKeyLe_bond_le h12) hne
  rcases List.mem_cons.mp hv with rfl | hv'
  · exact fun heq => absurd (heq ▸ hb12) (lt_irrefl _)
  · have h2v : ratingKeyLe r2 v = true :=
      (List.sorted_cons.mp (List.sorted_cons.mp hs).2).1 v hv'
    have hlt : r1.bond_id < v.bond_id := lt_of_lt_of_le hb12 (ratingKeyLe_bond_le h2v)
    exact fun heq => absurd (heq ▸ hlt) (lt_irrefl _)

/-- A row kept by `lastOfRuns` of a sorted list dominates (in the sort key)
every row of its bond. -/
theorem lastOfRuns_max : ∀ {L : List CreditRating},
    List.Sorted (fun a b => ratingKeyLe a b = true) L →
    ∀ r ∈ lastOfRuns L, ∀ v ∈ L, v.bond_id = r.bond_id → ratingKeyLe v r = true := by
  intro L
  induction L with
  | nil => intro _ r hr; simp [lastOfRuns] at hr
  | cons r1 tl ih =>
    cases tl with
    | nil =>
      intro _ r hr v hv _
      have hr1 : r = r1 := by simpa [lastOfRuns] using hr
      have hv1 : v = r1 := by simpa using hv
      subst hr1; subst hv1
      exact ratingKeyLe_refl _
    | cons r2 rest =>
      intro hs r hr v hv hbv
      by_cases he : r1.bond_id = r2.bond_id
      · rw [lastOfRuns, if_pos he] at hr
        rcases List.mem_cons.mp hv with rfl | hv'
        · exact (List.sorted_cons.mp hs).1 r (mem_of_mem_lastOfRuns hr)
        · exact ih hs.of_cons r hr v hv' hbv
      · rw [lastOfRuns, if_neg he] at hr
        rcases List.mem_cons.mp hr with rfl | hr'
        · rcases List.mem_cons.mp hv with rfl | hv'
          · exact ratingKeyLe_refl _
          · exact absurd hbv (no_bond_in_tail hs he v hv')
        · rcases List.mem_cons.mp hv with rfl | hv'
          · exact absurd hbv.symm (no_bond_in_tail hs he r (mem_of_mem_lastOfRuns hr'))
          · exact ih hs.of_cons r hr' v hv' hbv

/-- A row kept by `lastOfRuns` of a sorted list is the last row of its
(bond, date) class in that list. -/
theorem lastOfRuns_getLast : ∀ {L : List CreditRating},
    List.Sorted (fun a b => ratingKeyLe a b = true) L →
    ∀ r ∈ lastOfRuns L,
      (L.filter fun v => decide (v.bond_id = r.bond_id) &&
        decide (v.rating_date.days = r.rating_date.days)).getLast? = some r := by
  intro L
  induction L with
  | nil => intro _ r hr; simp [lastOfRuns] at hr
  | cons r1 tl ih =>
    cases tl with
    | nil =>
      intro _ r hr
      have hr1 : r = r1 := by simpa [lastOfRuns] using hr
      subst hr1
      simp
    | cons r2 rest =>
      intro hs r hr
      by_cases he : r1.bond_id = r2.bond_id
      · rw [lastOfRuns, if_pos he] at hr
        have htail := ih hs.of_cons r hr
        by_cases hc : (decide (r1.bond_id = r.bond_id) &&
            decide (r1.rating_date.days = r.rating_date.days)) = true
        · rw [@List.filter_cons_of_pos _ (fun v => decide (v.bond_id = r.bond_id) &&
            decide (v.rating_date.days = r.rating_date.days)) r1 (r2 :: rest) hc]
          have hne : ((r2 :: rest).filter fun v => decide (v.bond_id = r.bond_id) &&
              decide (v.rating_date.days = r.rating_date.days)) ≠ [] := by
            intro hnil
            rw [hnil] at htail
            simp at htail
          rcases List.exists_cons_of_ne_nil hne with ⟨y, t, hyt⟩
          rw [hyt] at htail ⊢
          rw [List.getLast?_cons_cons]
          exact htail
        · rw [@List.filter_cons_of_neg _ (fun v => decide (v.bond_id = r.bond_id) &&
            decide (v.rating_date.days = r.rating_date.days)) r1 (r2 :: rest) hc]
          exact htail
      · rw [lastOfRuns, if_neg he] at hr
        rcases List.mem_cons.mp hr with rfl | hr'
        · have hnil : ((r2 :: rest).filter fun v => decide (v.bond_id = r.bond_id) &&
              decide (v.rating_date.days = r.rating_date.days)) = [] := by
            rw [List.filter_eq_nil_iff]
            intro v hv
            simp only [Bool.and_eq_true, decide_eq_true_eq, not_and]
            intro hb _
            exact no_bond_in_tail hs he v hv hb
          rw [@List.filter_cons_of_pos _ (fun v => decide (v.bond_id = r.bond_id) &&
            decide (v.rating_date.days = r.rating_date.days)) r (r2 :: rest) (by simp), hnil]
          rfl
        · have hbr : r.bond_id ≠ r1.bond_id :=
            no_bond_in_tail hs he r (mem_of_mem_lastOfRuns hr')
          rw [@List.filter_cons_of_neg _ (fun v => decide (v.bond_id = r.bond_id) &&
            decide (v.rating_date.days = r.rating_date.days)) r1 (r2 :: rest) (by
              simp only [Bool.and_eq_true, decide_eq_true_eq]
              rintro ⟨hb, _⟩
              exact hbr hb.symm)]
          exact ih hs.of_cons r hr'

/-- Distinct bonds: `lastOfRuns` of a sorted list keeps at most one row per
bond. -/
theorem lastOfRuns_pairwise : ∀ {L : List CreditRating},
    List.Sorted (fun a b => ratingKeyLe a b = true) L →
    (lastOfRuns L).Pairwise (fun a b => a.bond_id ≠ b.bond_id) := by
  intro L
  induction L with
  | nil => intro _; simp [lastOfRuns]
  | cons r1 tl ih =>
    cases tl with
    | nil => intro _; simp [lastOfRuns]
    | cons r2 rest =>
      intro hs
      by_cases he : r1.bond_id = r2.bond_id
      · rw [lastOfRuns, if_pos he]
        exact ih hs.of_cons
      · rw [lastOfRuns, if_neg he]
        refine List.Pairwise.cons ?_ (ih hs.of_cons)
        intro v hv h1v
        exact (no_bond_in_tail hs he v (mem_of_mem_lastOfRuns hv)) h1v.symm

/-- C10: the fallback's latest-rating choice is deterministic. Every entry
`(b, c)` of the latest table comes from a rating row `r` of bond `b` with
code `c` whose date is the bond's maximum rating date, and among the bond's
rows sharing that maximum date `r` is the one appearing last in input
order. -/
theorem latestPerBond_spec (ratings : List CreditRating) (b c : String)
    (hmem : (b, c) ∈ latestPerBond ratings) :
    ∃ r ∈ ratings, r.bond_id = b ∧ r.rating_code = c ∧
      (∀ v ∈ ratings, v.bond_id = b → v.rating_date.days ≤ r.rating_date.days) ∧
      (ratings.filter fun v => decide (v.bond_id = b) &&
        decide (v.rating_date.days = r.rating_date.days)).getLast? = some r := by
  unfold latestPerBond at hmem
  rcases List.mem_map.mp hmem with ⟨r, hrLOR, hrpair⟩
  have hb : r.bond_id = b := congrArg Prod.fst hrpair
  have hcc : r.rating_code = c := congrArg Prod.snd hrpair
  have hs : List.Sorted (fun a b => ratingKeyLe a b = true)
      (isortBy ratingKeyLe ratings) :=
    sorted_isortBy ratingKeyLe ratingKeyLe_tot ratingKeyLe_trans ratings
  have hrRat : r ∈ ratings :=
    (mem_isortBy ratingKeyLe).mp (mem_of_mem_lastOfRuns hrLOR)
  refine ⟨r, hrRat, hb, hcc, ?_, ?_⟩
  · intro v hv hvb
    have hvL : v ∈ isortBy ratingKeyLe ratings := (mem_isortBy ratingKeyLe).mpr hv
    have hvr := lastOfRuns_max hs r hrLOR v hvL (hvb.trans hb.symm)
    exact ratingKeyLe_days hvr (hvb.trans hb.symm)
  · have hlast := lastOfRuns_getLast hs r hrLOR
    have hstab := filter_isortBy ratingKeyLe
      (fun v => decide (v.bond_id = r.bond_id) &&
        decide (v.rating_date.days = r.rating_date.days)) ratings (by
          intro x y hx hy
          simp only [Bool.and_eq_true, decide_eq_true_eq] at hx hy
          rw [ratingKeyLe_iff]
          exact Or.inr ⟨hx.1.trans hy.1.symm, le_of_eq (hx.2.trans hy.2.symm)⟩)
    rw [hstab] at hlast
    rw [← hb]
    exact hlast

/-- A ratings fixture with a tie on the maximum rating date: the bond's
latest rating must be the tied row appearing last in input order (BBB). -/
def ratingsFix : List CreditRating :=
  [⟨"B1", "A", ⟨2020, 1, 1⟩⟩, ⟨"B1", "BB", ⟨2021, 6, 1⟩⟩, ⟨"B1", "BBB", ⟨2021, 6, 1⟩⟩]

/-- Witness for `latestPerBond_spec` at a concrete ratings table. -/
theorem latestPerBond_spec_witness :
    ∃ r ∈ ratingsFix, r.bond_id = "B1" ∧ r.rating_code = "BBB" ∧
      (∀ v ∈ ratingsFix, v.bond_id = "B1" → v.rating_date.days ≤ r.rating_date.days) ∧
      (ratingsFix.filter fun v => decide (v.bond_id = "B1") &&
        decide (v.rating_date.days = r.rating_date.days)).getLast? = some r :=
  latestPerBond_spec ratingsFix "B1" "BBB" (by decide)

/-! ## The execution adapter (`run_query`, lines 82-86)

```python
def run_query(sql: str):
    if not session:
        raise RuntimeError("Snowflake session not available. ...")
    return session.sql(sql).to_pandas()
```

`session` is set once at startup (lines 17-24) and `run_query` closes over
it; the embedding passes it explicitly. -/

/-- A tabular query result (ordered rows of column values). -/
def Table := List (List String)

/-- A live session, abstracted as its query evaluator. -/
structure LiveSession where
  exec : String → Table

/-- The error `run_query` raises when no live session exists
(`RuntimeError("Snowflake session not available. ...")`). -/
inductive QueryError where
  | dataSourceUnavailable
  deriving DecidableEq

/-- The execution adapter. -/
def run_query (session : Option LiveSession) (sql : String) : Except QueryError Table :=
  match session with
  | none => .error .dataSourceUnavailable
  | some s => .ok (s.exec sql)

/-- C9: with no live session, `run_query` fails with the
data-source-unavailable error for every query text — and only then: a
successful result always comes from the live session's execution, never
from fallback data (the live/fallback decision is the `session` value fixed
at startup, not a per-call fallback). -/
theorem run_query_requires_session (session : Option LiveSession) (sql : String) :
    (run_query session sql = .error .dataSourceUnavailable ↔ session = none) ∧
    (∀ s, session = some s → run_query session sql = .ok (s.exec sql)) := by
  constructor
  · constructor
    · intro h
      cases session with
      | none => rfl
      | some s => simp [run_query] at h
    · rintro rfl
      rfl
  · rintro s rfl
    rfl

/-- Witness for `run_query_requires_session`: the no-session case errors. -/
theorem run_query_requires_session_witness :
    run_query none "SELECT 1" = .error .dataSourceUnavailable :=
  (run_query_requires_session none "SELECT 1").1.mpr rfl

/-! ## The fallback visualization frame (`load_visual_data`, lines 90-144)

The fallback path reads the six CSVs, renames `price` to `trade_price` and
`state` to `state_code` where needed, computes the per-bond latest rating
(`latestPerBond`), left-merges trades with bonds, issuers, latest ratings
and purposes, derives `time_to_maturity_years` and keeps only rows with
that value `between(0, 40)`. -/

/-- The match list of a pandas left merge: no match keeps a single row with
nulls; `k` matches multiply the row `k` times. -/
def optMatches {β : Type _} (l : List β) : List (Option β) :=
  if l.isEmpty then [none] else l.map some

/-- A row of the merged visualization frame. -/
structure VisualRow where
  trade : Trade
  bond : Option Bond
  issuer : Option Issuer
  latest_rating : Option String
  purpose_category : Option String
  state_code : Option String
  time_to_maturity_years : Option Rat
  deriving DecidableEq

/-- `(maturity_date - trade_date).dt.days / 365.25` (365.25 = 1461/4). -/
def ttmOf (b : Bond) (t : Trade) : Rat :=
  (((b.maturity_date.days : Int) - (t.trade_date.days : Int) : Int) : Rat) / (1461 / 4 : Rat)

/-- The merged rows contributed by one trade (the chain of left merges of
lines 134-139 plus the derived columns of lines 140-142). -/
def mergeTrade (ds : Dataset) (latest : List (String × String)) (t : Trade) :
    List VisualRow :=
  (optMatches (ds.bonds.filter fun b => decide (b.bond_id = t.bond_id))).flatMap fun ob =>
    (optMatches (ds.issuers.filter fun i =>
        decide (ob.map Bond.issuer_id = some i.issuer_id))).flatMap fun oi =>
      (optMatches (latest.filter fun e => decide (e.1 = t.bond_id))).flatMap fun ol =>
        (optMatches (ds.purposes.filter fun p =>
            decide (ob.bind Bond.purpose_id = some p.purpose_id))).map fun op =>
          { trade := t, bond := ob, issuer := oi,
            latest_rating := ol.map Prod.snd,
            purpose_category := op.map Purpose.purpose_category,
            state_code := oi.bind Issuer.state_code,
            time_to_maturity_years := ob.map fun b => ttmOf b t }

/-- The frame `load_visual_data` returns on the fallback path: the merge,
then `df[df["time_to_maturity_years"].between(0, 40)]` (a row filter; rows
with a null derived value — no matching bond — fail `between`). -/
def load_visual_data (ds : Dataset) : List VisualRow :=
  (ds.trades.flatMap (mergeTrade ds (latestPerBond ds.ratings))).filter fun r =>
    match r.time_to_maturity_years with
    | some v => decide (0 ≤ v ∧ v ≤ 40)
    | none => false

/-- C8: every row of the fallback frame has
`time_to_maturity_years = (maturity_date - trade_date in days) / 365.25`
for its merged bond, and that value lies in `[0, 40]`. -/
theorem load_visual_data_ttm (ds : Dataset) (r : VisualRow)
    (hr : r ∈ load_visual_data ds) :
    ∃ b v, r.bond = some b ∧ r.time_to_maturity_years = some v ∧
      v = (((b.maturity_date.days : Int) - (r.trade.trade_date.days : Int) : Int) : Rat) /
        (1461 / 4 : Rat) ∧
      0 ≤ v ∧ v ≤ 40 := by
  rcases List.mem_filter.mp hr with ⟨hmem, hcond⟩
  rcases List.mem_flatMap.mp hmem with ⟨t, _, hrt⟩
  rcases List.mem_flatMap.mp hrt with ⟨ob, _, h2⟩
  rcases List.mem_flatMap.mp h2 with ⟨oi, _, h3⟩
  rcases List.mem_flatMap.mp h3 with ⟨ol, _, h4⟩
  rcases List.mem_map.mp h4 with ⟨op, _, hreq⟩
  subst hreq
  cases ob with
  | none => simp at hcond
  | some b =>
    simp only [Option.map_some'] at hcond ⊢
    have hb : (0 ≤ ttmOf b t ∧ ttmOf b t ≤ 40) := by simpa using hcond
    exact ⟨b, ttmOf b t, rfl, rfl, rfl, hb.1, hb.2⟩

/-- A one-trade fixture for the fallback frame. -/
def bondC8 : Bond := ⟨"B1", "I1", none, none, ⟨2020, 1, 1⟩, ⟨2030, 1, 1⟩⟩

/-- The fixture's single trade. -/
def tradeC8 : Trade := ⟨"B1", ⟨2024, 5, 10⟩, 100, 10, 3, "retail"⟩

/-- The fixture dataset for `load_visual_data`. -/
def dsC8 : Dataset :=
  ⟨[bondC8], [tradeC8], [⟨"I1", "Alpha", some "CA"⟩], [], [], []⟩

/-- The row `load_visual_data` produces from the fixture. -/
def rowC8 : VisualRow :=
  ⟨tradeC8, some bondC8, some ⟨"I1", "Alpha", some "CA"⟩, none, none, some "CA",
    some (ttmOf bondC8 tradeC8)⟩

unseal Rat.mul Rat.inv Rat.add Rat.sub in
/-- Witness for `load_visual_data_ttm` at the fixture row. -/
theorem load_visual_data_ttm_witness :
    ∃ b v, rowC8.bond = some b ∧ rowC8.time_to_maturity_years = some v ∧
      v = (((b.maturity_date.days : Int) - (rowC8.trade.trade_date.days : Int) : Int) : Rat) /
        (1461 / 4 : Rat) ∧
      0 ≤ v ∧ v ≤ 40 :=
  load_visual_data_ttm dsC8 rowC8 (by decide)

/-! ## Relational semantics of the generated queries

The `q*_exec` functions give the standard SQL meaning of the query text the
builders produce, over a `Dataset` standing for the six tables. `GROUP BY`
keeps one aggregate row per distinct key of the joined rows; `HAVING`
filters groups; `ORDER BY` sorts; `LIMIT` truncates. -/

/-- SQL `ROUND(x, 2)`. -/
def round2 (x : Rat) : Rat := (round (x * 100) : Int) / 100

/-- A joined row of Q2's `FROM`/`WHERE` part (trades x bonds x issuers
with a left-joined purpose, the date range and state predicates applied). -/
structure Q2Src where
  state : Option String
  purpose_category : String
  bond_id : String
  quantity : Int
  price : Rat
  deriving DecidableEq

/-- A result row of Q2. -/
structure Q2Row where
  state : Option String
  purpose_category : String
  bonds_traded : Nat
  total_quantity : Int
  avg_trade_price : Rat
  deriving DecidableEq

/-- Q2's joined and filtered source rows. -/
def q2_joined (opts states : List String) (start stop : Date) (ds : Dataset) :
    List Q2Src :=
  ds.trades.flatMap fun t =>
    (ds.bonds.filter fun b => decide (b.bond_id = t.bond_id)).flatMap fun b =>
      (ds.issuers.filter fun i => decide (i.issuer_id = b.issuer_id)).flatMap fun i =>
        (optMatches (ds.purposes.filter fun p =>
            decide (b.purpose_id = some p.purpose_id))).filterMap fun op =>
          if Date.le start t.trade_date && Date.le t.trade_date stop &&
              statePred opts states i.state_code then
            some { state := i.state_code,
                   purpose_category := (op.bind Purpose.code).getD "UNSPEC",
                   bond_id := b.bond_id, quantity := t.quantity, price := t.price }
          else none

/-- The semantics of the query `q2` builds: group by (state, purpose),
aggregate, `HAVING SUM(t.quantity) >= 100`, order by total quantity
descending, truncate to the row limit. -/
def q2_exec (opts states : List String) (start stop : Date) (limit : Nat)
    (ds : Dataset) : List Q2Row :=
  let src := q2_joined opts states start stop ds
  let keys := (src.map fun w => (w.state, w.purpose_category)).dedup
  let rows := keys.map fun k =>
    let grp := src.filter fun w => decide ((w.state, w.purpose_category) = k)
    { state := k.1, purpose_category := k.2,
      bonds_traded := ((grp.map Q2Src.bond_id).dedup).length,
      total_quantity := (grp.map Q2Src.quantity).sum,
      avg_trade_price := round2 ((grp.map Q2Src.price).sum / (grp.length : Rat)) }
  let kept := rows.filter fun r => decide (100 ≤ r.total_quantity)
  (isortBy (fun a b => decide (b.total_quantity ≤ a.total_quantity)) kept).take limit

/-- C3: every row Q2 returns represents a (state, purpose) group whose
summed quantity is at least the fixed threshold 100; the row's
`total_quantity` is that group sum. Groups below 100 are filtered out by
the `HAVING` clause. -/
theorem q2_rows_meet_threshold (opts states : List String) (start stop : Date)
    (limit : Nat) (ds : Dataset) (r : Q2Row)
    (hr : r ∈ q2_exec opts states start stop limit ds) :
    100 ≤ r.total_quantity ∧
    r.total_quantity = (((q2_joined opts states start stop ds).filter fun w =>
      decide ((w.state, w.purpose_category) = (r.state, r.purpose_category))).map
        Q2Src.quantity).sum := by
  have hr1 : r ∈ isortBy (fun a b => decide (b.total_quantity ≤ a.total_quantity))
      (((q2_joined opts states start stop ds).map fun w =>
          (w.state, w.purpose_category)).dedup.map _
        |>.filter fun r => decide (100 ≤ r.total_quantity)) :=
    List.mem_of_mem_take hr
  have hr2 := (mem_isortBy _).mp hr1
  rcases List.mem_filter.mp hr2 with ⟨hrow, hhav⟩
  rcases List.mem_map.mp hrow with ⟨k, _, rfl⟩
  refine ⟨by simpa using hhav, ?_⟩
  simp only [Prod.mk.eta]

/-- A fixture for Q2: one trade of quantity 150. -/
def dsQ2 : Dataset :=
  ⟨[⟨"B1", "I1", none, none, ⟨2019, 1, 1⟩, ⟨2030, 1, 1⟩⟩],
   [⟨"B1", ⟨2024, 5, 10⟩, 100, 150, 3, "retail"⟩],
   [⟨"I1", "Alpha", some "CA"⟩], [], [], []⟩

/-- The Q2 result row of the fixture. -/
def rowQ2 : Q2Row := ⟨some "CA", "UNSPEC", 1, 150, 100⟩

unseal Rat.mul Rat.inv Rat.add Rat.sub in
/-- Witness for `q2_rows_meet_threshold` at the fixture. -/
theorem q2_rows_meet_threshold_witness :
    100 ≤ rowQ2.total_quantity ∧
    rowQ2.total_quantity = (((q2_joined optsFix [] ⟨2024, 1, 1⟩ ⟨2024, 12, 31⟩ dsQ2).filter
      fun w => decide ((w.state, w.purpose_category) =
        (rowQ2.state, rowQ2.purpose_category))).map Q2Src.quantity).sum :=
  q2_rows_meet_threshold optsFix [] ⟨2024, 1, 1⟩ ⟨2024, 12, 31⟩ 50 dsQ2 rowQ2 (by decide)

/-- A joined row of Q5's `FROM`/`WHERE` part: trades x bonds x issuers
joined to the month-truncated treasury series, with non-null coupon, the
date range and the state predicates. -/
structure Q5Src where
  state : Option String
  trade_month : Nat × Nat
  coupon_rate : Rat
  treasury_10yr : Rat
  deriving DecidableEq

/-- A result row of Q5. -/
structure Q5Row where
  state : Option String
  trade_month : Nat × Nat
  avg_coupon_rate : Rat
  avg_treasury_10yr : Rat
  avg_coupon_spread : Rat
  deriving DecidableEq

/-- The `ten_yr` CTE: `TREASURY_10YR` rows as (geo, month, value). -/
def ten_yr (ds : Dataset) : List (String × (Nat × Nat) × Rat) :=
  (ds.econ.filter fun e => decide (e.indicator_name = "TREASURY_10YR")).map fun e =>
    (e.geo_code, e.period_start_date.monthKey, e.value)

/-- Q5's joined and filtered source rows. -/
def q5_joined (opts states : List String) (start stop : Date) (ds : Dataset) :
    List Q5Src :=
  ds.trades.flatMap fun t =>
    (ds.bonds.filter fun b => decide (b.bond_id = t.bond_id)).flatMap fun b =>
      (ds.issuers.filter fun i => decide (i.issuer_id = b.issuer_id)).flatMap fun i =>
        ((ten_yr ds).filter fun e =>
            decide (i.state_code = some e.1) &&
            decide (e.2.1 = t.trade_date.monthKey)).filterMap fun e =>
          match b.coupon_rate with
          | some c =>
            if Date.le start t.trade_date && Date.le t.trade_date stop &&
                statePred opts states i.state_code then
              some { state := i.state_code, trade_month := t.trade_date.monthKey,
                     coupon_rate := c, treasury_10yr := e.2.2 }
            else none
          | none => none

/-- The semantics of the query `q5` builds: group by (state, month),
`HAVING COUNT(*) >= 10`, averages rounded to two decimals, ordered by the
average coupon spread descending, truncated to the row limit. -/
def q5_exec (opts states : List String) (start stop : Date) (limit : Nat)
    (ds : Dataset) : List Q5Row :=
  let src := q5_joined opts states start stop ds
  let keys := (src.map fun w => (w.state, w.trade_month)).dedup
  let keptKeys := keys.filter fun k =>
    decide (10 ≤ (src.filter fun w => decide ((w.state, w.trade_month) = k)).length)
  let rows := keptKeys.map fun k =>
    let grp := src.filter fun w => decide ((w.state, w.trade_month) = k)
    { state := k.1, trade_month := k.2,
      avg_coupon_rate := round2 ((grp.map Q5Src.coupon_rate).sum / (grp.length : Rat)),
      avg_treasury_10yr := round2 ((grp.map Q5Src.treasury_10yr).sum / (grp.length : Rat)),
      avg_coupon_spread := round2 (((grp.map fun w =>
        w.coupon_rate - w.treasury_10yr).sum) / (grp.length : Rat)) }
  (isortBy (fun a b => decide (b.avg_coupon_spread ≤ a.avg_coupon_spread)) rows).take limit

/-- Sorting by spread descending and truncating leaves a descending list. -/
theorem sorted_take_spread (rows : List Q5Row) (limit : Nat) :
    List.Sorted (fun a b : Q5Row => b.avg_coupon_spread ≤ a.avg_coupon_spread)
      ((isortBy (fun a b : Q5Row => decide (b.avg_coupon_spread ≤ a.avg_coupon_spread))
        rows).take limit) := by
  have hs := sorted_isortBy
    (fun a b : Q5Row => decide (b.avg_coupon_spread ≤ a.avg_coupon_spread))
    (by
      intro a b h
      simp only [decide_eq_false_iff_not, not_le] at h
      simpa using le_of_lt h)
    (by
      intro a b c h1 h2
      simp only [decide_eq_true_eq] at h1 h2 ⊢
      exact le_trans h2 h1)
    rows
  have hs' : List.Sorted (fun a b : Q5Row => b.avg_coupon_spread ≤ a.avg_coupon_spread)
      (isortBy (fun a b : Q5Row => decide (b.avg_coupon_spread ≤ a.avg_coupon_spread))
        rows) := hs.imp fun h => by simpa using h
  exact hs'.sublist (List.take_sublist _ _)

/-- C4: every (state, month) row Q5 returns has at least 10 contributing
joined trade rows (`HAVING COUNT(*) >= 10`), and the returned rows are
ordered by average coupon spread descending. -/
theorem q5_min_trades_and_sorted (opts states : List String) (start stop : Date)
    (limit : Nat) (ds : Dataset) :
    (∀ r ∈ q5_exec opts states start stop limit ds,
      10 ≤ ((q5_joined opts states start stop ds).filter fun w =>
        decide ((w.state, w.trade_month) = (r.state, r.trade_month))).length) ∧
    List.Sorted (fun a b : Q5Row => b.avg_coupon_spread ≤ a.avg_coupon_spread)
      (q5_exec opts states start stop limit ds) := by
  constructor
  · intro r hr
    have hr1 := List.mem_of_mem_take hr
    have hr2 := (mem_isortBy _).mp hr1
    rcases List.mem_map.mp hr2 with ⟨k, hk, rfl⟩
    rcases List.mem_filter.mp hk with ⟨_, hcnt⟩
    simp only [Prod.mk.eta]
    simpa using hcnt
  · exact sorted_take_spread _ limit

/-- A fixture for Q5: ten trades of one CA bond in 2024-05 and one
matching treasury observation. -/
def dsQ5 : Dataset :=
  ⟨[⟨"B1", "I1", none, some 5, ⟨2019, 1, 1⟩, ⟨2030, 1, 1⟩⟩],
   [⟨"B1", ⟨2024, 5, 1⟩, 100, 10, 3, "retail"⟩,
    ⟨"B1", ⟨2024, 5, 2⟩, 100, 10, 3, "retail"⟩,
    ⟨"B1", ⟨2024, 5, 3⟩, 100, 10, 3, "retail"⟩,
    ⟨"B1", ⟨2024, 5, 4⟩, 100, 10, 3, "retail"⟩,
    ⟨"B1", ⟨2024, 5, 5⟩, 100, 10, 3, "retail"⟩,
    ⟨"B1", ⟨2024, 5, 6⟩, 100, 10, 3, "retail"⟩,
    ⟨"B1", ⟨2024, 5, 7⟩, 100, 10, 3, "retail"⟩,
    ⟨"B1", ⟨2024, 5, 8⟩, 100, 10, 3, "retail"⟩,
    ⟨"B1", ⟨2024, 5, 9⟩, 100, 10, 3, "retail"⟩,
    ⟨"B1", ⟨2024, 5, 10⟩, 100, 10, 3, "retail"⟩],
   [⟨"I1", "Alpha", some "CA"⟩], [], [],
   [⟨"TREASURY_10YR", "CA", ⟨2024, 5, 1⟩, 2⟩]⟩

/-- The Q5 result row of the fixture. -/
def rowQ5 : Q5Row := ⟨some "CA", (2024, 5), 5, 2, 3⟩

unseal Rat.mul Rat.inv Rat.add Rat.sub in
/-- Witness for `q5_min_trades_and_sorted` at the fixture. -/
theorem q5_min_trades_and_sorted_witness :
    10 ≤ ((q5_joined optsFix [] ⟨2024, 1, 1⟩ ⟨2024, 12, 31⟩ dsQ5).filter fun w =>
      decide ((w.state, w.trade_month) = (rowQ5.state, rowQ5.trade_month))).length ∧
    List.Sorted (fun a b : Q5Row => b.avg_coupon_spread ≤ a.avg_coupon_spread)
      (q5_exec optsFix [] ⟨2024, 1, 1⟩ ⟨2024, 12, 31⟩ 50 dsQ5) :=
  ⟨(q5_min_trades_and_sorted optsFix [] ⟨2024, 1, 1⟩ ⟨2024, 12, 31⟩ 50 dsQ5).1
      rowQ5 (by decide),
   (q5_min_trades_and_sorted optsFix [] ⟨2024, 1, 1⟩ ⟨2024, 12, 31⟩ 50 dsQ5).2⟩

/-! ## Q3 semantics: the rating-migration query

The query ranks, per bond, every (bond x issuer x rating) row by rating
date in both directions (`ROW_NUMBER` windows), then groups by
(bond, issuer name, state), selects the rating codes at rank 1, and keeps
groups whose latest and first codes differ. `ROW_NUMBER` on tied dates is
unspecified in SQL; the embedding resolves ties deterministically by input
row order, the policy the spec directs an implementation to pick. -/

/-- A row of Q3's `ranked` CTE body (before the window columns). -/
structure Q3Base where
  bond_id : String
  issuer_name : String
  state : Option String
  rating_code : String
  rating_date : Date
  deriving DecidableEq

/-- Q3's joined rows: bonds x issuers (with the state filter) x ratings. -/
def q3_base (opts states : List String) (ds : Dataset) : List Q3Base :=
  ds.bonds.flatMap fun b =>
    (ds.issuers.filter fun i => decide (i.issuer_id = b.issuer_id) &&
        statePred opts states i.state_code).flatMap fun i =>
      (ds.ratings.filter fun cr => decide (cr.bond_id = b.bond_id)).map fun cr =>
        ⟨b.bond_id, i.name, i.state_code, cr.rating_code, cr.rating_date⟩

/-- `ROW_NUMBER() OVER (PARTITION BY bond_id ORDER BY rating_date DESC)`
of a position-tagged row: one plus the number of partition rows with a
strictly later date, or the same date and an earlier position. -/
def rn_desc (ranked : List (Nat × Q3Base)) (iw : Nat × Q3Base) : Nat :=
  1 + (ranked.filter fun jv =>
    decide (jv.2.bond_id = iw.2.bond_id) &&
    (decide (iw.2.rating_date.days < jv.2.rating_date.days) ||
      (decide (jv.2.rating_date.days = iw.2.rating_date.days) &&
        decide (jv.1 < iw.1)))).length

/-- `ROW_NUMBER() OVER (PARTITION BY bond_id ORDER BY rating_date ASC)`,
ties again by input position. -/
def rn_asc (ranked : List (Nat × Q3Base)) (iw : Nat × Q3Base) : Nat :=
  1 + (ranked.filter fun jv =>
    decide (jv.2.bond_id = iw.2.bond_id) &&
    (decide (jv.2.rating_date.days < iw.2.rating_date.days) ||
      (decide (jv.2.rating_date.days = iw.2.rating_date.days) &&
        decide (jv.1 < iw.1)))).length

/-- Lexicographic maximum of two strings (SQL `MAX` over a string column),
compared as character lists. -/
def strMax (a b : String) : String := if a.data < b.data then b else a

/-- One step of SQL `MAX` string aggregation. -/
def maxStrStep (acc : Option String) (c : String) : Option String :=
  match acc with
  | none => some c
  | some a => some (strMax a c)

/-- SQL `MAX` over a string column (`NULL` on the empty column). -/
def maxStr (l : List String) : Option String := l.foldl maxStrStep none

/-- One step of SQL `MAX` aggregation over day numbers. -/
def maxNatStep (acc : Option Nat) (c : Nat) : Option Nat :=
  match acc with
  | none => some c
  | some a => some (max a c)

/-- SQL `MAX` over a date column, on day numbers. -/
def maxNat (l : List Nat) : Option Nat := l.foldl maxNatStep none

theorem maxStr_shift : ∀ (l : List String) (acc : Option String) {a : String},
    l.foldl maxStrStep acc = some a → acc = some a ∨ a ∈ l := by
  intro l
  induction l with
  | nil => intro acc a h; exact Or.inl h
  | cons c t ih =>
    intro acc a h
    rcases ih (maxStrStep acc c) h with hstep | hmem
    · cases acc with
      | none =>
        right
        have hca : c = a := by simpa [maxStrStep] using hstep
        rw [← hca]
        exact List.mem_cons_self _ _
      | some x =>
        have hxa : strMax x c = a := by simpa [maxStrStep] using hstep
        by_cases hlt : x.data < c.data
        · right
          rw [strMax, if_pos hlt] at hxa
          rw [← hxa]
          exact List.mem_cons_self _ _
        · left
          rw [strMax, if_neg hlt] at hxa
          rw [hxa]
    · right
      exact List.mem_cons_of_mem c hmem

/-- A string `MAX` aggregate that yields a value yields a column value. -/
theorem maxStr_mem {l : List String} {a : String} (h : maxStr l = some a) :
    a ∈ l := by
  rcases maxStr_shift l none h with h' | h'
  · simp at h'
  · exact h'

/-- A result row of Q3. The `latest_rating_date` column carries the day
number of the selected date. -/
structure Q3Row where
  bond_id : String
  issuer_name : String
  state : Option String
  latest_rating : Option String
  first_rating : Option String
  latest_rating_date : Option Nat
  deriving DecidableEq

/-- The semantics of the query `q3` builds. -/
def q3_exec (opts states : List String) (limit : Nat) (ds : Dataset) :
    List Q3Row :=
  let ranked := (q3_base opts states ds).enum
  let keys := (ranked.map fun iw => (iw.2.bond_id, iw.2.issuer_name, iw.2.state)).dedup
  let rows := keys.map fun k =>
    let grp := ranked.filter fun iw =>
      decide ((iw.2.bond_id, iw.2.issuer_name, iw.2.state) = k)
    { bond_id := k.1, issuer_name := k.2.1, state := k.2.2,
      latest_rating := maxStr ((grp.filter fun iw =>
        decide (rn_desc ranked iw = 1)).map fun iw => iw.2.rating_code),
      first_rating := maxStr ((grp.filter fun iw =>
        decide (rn_asc ranked iw = 1)).map fun iw => iw.2.rating_code),
      latest_rating_date := maxNat ((grp.filter fun iw =>
        decide (rn_desc ranked iw = 1)).map fun iw => iw.2.rating_date.days) }
  let kept := rows.filter fun r =>
    match r.latest_rating, r.first_rating with
    | some a, some b => decide (a ≠ b)
    | _, _ => false
  kept.take limit

/-- Two distinct members force length at least two. -/
theorem two_le_length_of_mem_ne {α : Type _} {l : List α} {a b : α}
    (ha : a ∈ l) (hb : b ∈ l) (hne : a ≠ b) : 2 ≤ l.length := by
  cases l with
  | nil => cases ha
  | cons x t =>
    cases t with
    | nil =>
      rcases List.mem_singleton.mp ha with rfl
      rcases List.mem_singleton.mp hb with rfl
      exact absurd rfl hne
    | cons y u => simp [List.length]

/-- Extract the two rating codes from a passed `HAVING latest <> first`. -/
theorem having_ne_extract {x y : Option String}
    (h : (match x, y with
      | some a, some b => decide (a ≠ b)
      | _, _ => false) = true) :
    ∃ a b, x = some a ∧ y = some b ∧ a ≠ b := by
  cases x with
  | none => cases y <;> simp at h
  | some a =>
    cases y with
    | none => simp at h
    | some b => exact ⟨a, b, rfl, rfl, by simpa using h⟩

/-- A rank-1 row of the descending window carries a rating of its bond
with the bond's maximum rating date. -/
theorem q3_rank1_desc (opts states : List String) (ds : Dataset)
    {iw : Nat × Q3Base} (hmem : iw ∈ (q3_base opts states ds).enum)
    (hrn : rn_desc (q3_base opts states ds).enum iw = 1) :
    ∃ rl, rl ∈ ds.ratings ∧ rl.bond_id = iw.2.bond_id ∧
      rl.rating_code = iw.2.rating_code ∧ rl.rating_date = iw.2.rating_date ∧
      ∀ v ∈ ds.ratings, v.bond_id = iw.2.bond_id →
        v.rating_date.days ≤ iw.2.rating_date.days := by
  obtain ⟨i0, w⟩ := iw
  have hw : w ∈ q3_base opts states ds := by
    have h1 : w ∈ (q3_base opts states ds).enum.map Prod.snd :=
      List.mem_map_of_mem _ hmem
    rwa [List.enum_map_snd] at h1
  rcases List.mem_flatMap.mp hw with ⟨b, hb, h2⟩
  rcases List.mem_flatMap.mp h2 with ⟨i, hi, h3⟩
  rcases List.mem_map.mp h3 with ⟨cr, hcr, heq⟩
  rcases List.mem_filter.mp hcr with ⟨hcrRat, hcrBond⟩
  have hcrb : cr.bond_id = b.bond_id := by simpa using hcrBond
  subst heq
  rw [rn_desc] at hrn
  have h0 : ∀ {n : Nat}, 1 + n = 1 → n = 0 := by omega
  have hno := List.filter_eq_nil_iff.mp (List.length_eq_zero.mp (h0 hrn))
  refine ⟨cr, hcrRat, hcrb, rfl, rfl, ?_⟩
  intro v hv hvb
  have hv' : (⟨b.bond_id, i.name, i.state_code, v.rating_code, v.rating_date⟩ : Q3Base)
      ∈ q3_base opts states ds := by
    refine List.mem_flatMap.mpr ⟨b, hb, ?_⟩
    refine List.mem_flatMap.mpr ⟨i, hi, ?_⟩
    refine List.mem_map.mpr ⟨v, ?_, rfl⟩
    refine List.mem_filter.mpr ⟨hv, by simpa using hvb⟩
  have hv'' : (⟨b.bond_id, i.name, i.state_code, v.rating_code, v.rating_date⟩ : Q3Base)
      ∈ (q3_base opts states ds).enum.map Prod.snd := by
    rw [List.enum_map_snd]; exact hv'
  rcases List.mem_map.mp hv'' with ⟨jv, hjv, hsnd⟩
  obtain ⟨j, w2⟩ := jv
  simp only at hsnd
  subst hsnd
  have hcond := hno _ hjv
  have hnlt : ¬ cr.rating_date.days < v.rating_date.days := by
    intro hlt
    apply hcond
    simp only [Bool.and_eq_true, Bool.or_eq_true, decide_eq_true_eq]
    exact ⟨by trivial, Or.inl hlt⟩
  exact Nat.le_of_not_lt hnlt

/-- A rank-1 row of the ascending window carries a rating of its bond with
the bond's minimum rating date. -/
theorem q3_rank1_asc (opts states : List String) (ds : Dataset)
    {iw : Nat × Q3Base} (hmem : iw ∈ (q3_base opts states ds).enum)
    (hrn : rn_asc (q3_base opts states ds).enum iw = 1) :
    ∃ rf, rf ∈ ds.ratings ∧ rf.bond_id = iw.2.bond_id ∧
      rf.rating_code = iw.2.rating_code ∧ rf.rating_date = iw.2.rating_date ∧
      ∀ v ∈ ds.ratings, v.bond_id = iw.2.bond_id →
        iw.2.rating_date.days ≤ v.rating_date.days := by
  obtain ⟨i0, w⟩ := iw
  have hw : w ∈ q3_base opts states ds := by
    have h1 : w ∈ (q3_base opts states ds).enum.map Prod.snd :=
      List.mem_map_of_mem _ hmem
    rwa [List.enum_map_snd] at h1
  rcases List.mem_flatMap.mp hw with ⟨b, hb, h2⟩
  rcases List.mem_flatMap.mp h2 with ⟨i, hi, h3⟩
  rcases List.mem_map.mp h3 with ⟨cr, hcr, heq⟩
  rcases List.mem_filter.mp hcr with ⟨hcrRat, hcrBond⟩
  have hcrb : cr.bond_id = b.bond_id := by simpa using hcrBond
  subst heq
  rw [rn_asc] at hrn
  have h0 : ∀ {n : Nat}, 1 + n = 1 → n = 0 := by omega
  have hno := List.filter_eq_nil_iff.mp (List.length_eq_zero.mp (h0 hrn))
  refine ⟨cr, hcrRat, hcrb, rfl, rfl, ?_⟩
  intro v hv hvb
  have hv' : (⟨b.bond_id, i.name, i.state_code, v.rating_code, v.rating_date⟩ : Q3Base)
      ∈ q3_base opts states ds := by
    refine List.mem_flatMap.mpr ⟨b, hb, ?_⟩
    refine List.mem_flatMap.mpr ⟨i, hi, ?_⟩
    refine List.mem_map.mpr ⟨v, ?_, rfl⟩
    refine List.mem_filter.mpr ⟨hv, by simpa using hvb⟩
  have hv'' : (⟨b.bond_id, i.name, i.state_code, v.rating_code, v.rating_date⟩ : Q3Base)
      ∈ (q3_base opts states ds).enum.map Prod.snd := by
    rw [List.enum_map_snd]; exact hv'
  rcases List.mem_map.mp hv'' with ⟨jv, hjv, hsnd⟩
  obtain ⟨j, w2⟩ := jv
  simp only at hsnd
  subst hsnd
  have hcond := hno _ hjv
  have hnlt : ¬ v.rating_date.days < cr.rating_date.days := by
    intro hlt
    apply hcond
    simp only [Bool.and_eq_true, Bool.or_eq_true, decide_eq_true_eq]
    exact ⟨by trivial, Or.inl hlt⟩
  exact Nat.le_of_not_lt hnlt

/-- C2: every row Q3 returns carries a latest rating code taken at the
bond's maximum rating date and a first rating code taken at its minimum
rating date, and the two codes differ; consequently a bond with exactly
one recorded rating never appears (its ratings table slice has at least
two rows). -/
theorem q3_rows_rating_changed (opts states : List String) (limit : Nat)
    (ds : Dataset) (r : Q3Row) (hr : r ∈ q3_exec opts states limit ds) :
    ∃ rl rf, rl ∈ ds.ratings ∧ rl.bond_id = r.bond_id ∧
      rf ∈ ds.ratings ∧ rf.bond_id = r.bond_id ∧
      (∀ v ∈ ds.ratings, v.bond_id = r.bond_id →
        v.rating_date.days ≤ rl.rating_date.days) ∧
      (∀ v ∈ ds.ratings, v.bond_id = r.bond_id →
        rf.rating_date.days ≤ v.rating_date.days) ∧
      r.latest_rating = some rl.rating_code ∧
      r.first_rating = some rf.rating_code ∧
      rl.rating_code ≠ rf.rating_code ∧
      2 ≤ (ds.ratings.filter fun v => decide (v.bond_id = r.bond_id)).length := by
  have hr1 := List.mem_of_mem_take hr
  rcases List.mem_filter.mp hr1 with ⟨hrow, hhav⟩
  rcases List.mem_map.mp hrow with ⟨k, _, rfl⟩
  rcases having_ne_extract hhav with ⟨a, bb, hla, hfb, hab⟩
  have haMem := maxStr_mem hla
  rcases List.mem_map.mp haMem with ⟨iwL, hiwL, hcodeL⟩
  rcases List.mem_filter.mp hiwL with ⟨hiwLgrp, hrnL⟩
  rcases List.mem_filter.mp hiwLgrp with ⟨hiwLranked, hkeyL⟩
  obtain ⟨rl, hrlRat, hrlBond, hrlCode, hrlDate, hrlMax⟩ :=
    q3_rank1_desc opts states ds hiwLranked (of_decide_eq_true hrnL)
  have hbMem := maxStr_mem hfb
  rcases List.mem_map.mp hbMem with ⟨iwF, hiwF, hcodeF⟩
  rcases List.mem_filter.mp hiwF with ⟨hiwFgrp, hrnF⟩
  rcases List.mem_filter.mp hiwFgrp with ⟨hiwFranked, hkeyF⟩
  obtain ⟨rf, hrfRat, hrfBond, hrfCode, hrfDate, hrfMin⟩ :=
    q3_rank1_asc opts states ds hiwFranked (of_decide_eq_true hrnF)
  have hkL : (iwL.2.bond_id, iwL.2.issuer_name, iwL.2.state) = k :=
    of_decide_eq_true hkeyL
  have hkF : (iwF.2.bond_id, iwF.2.issuer_name, iwF.2.state) = k :=
    of_decide_eq_true hkeyF
  have hLb : iwL.2.bond_id = k.1 := congrArg Prod.fst hkL
  have hFb : iwF.2.bond_id = k.1 := congrArg Prod.fst hkF
  have hrlB : rl.bond_id = k.1 := hrlBond.trans hLb
  have hrfB : rf.bond_id = k.1 := hrfBond.trans hFb
  have hrlC : rl.rating_code = a := hrlCode.trans hcodeL
  have hrfC : rf.rating_code = bb := hrfCode.trans hcodeF
  refine ⟨rl, rf, hrlRat, hrlB, hrfRat, hrfB, ?_, ?_, ?_, ?_, ?_, ?_⟩
  · intro v hv hvb
    have := hrlMax v hv (hvb.trans hLb.symm)
    calc v.rating_date.days ≤ iwL.2.rating_date.days := this
      _ = rl.rating_date.days := by rw [hrlDate]
  · intro v hv hvb
    have := hrfMin v hv (hvb.trans hFb.symm)
    calc rf.rating_date.days = iwF.2.rating_date.days := by rw [hrfDate]
      _ ≤ v.rating_date.days := this
  · rw [hla, hrlC]
  · rw [hfb, hrfC]
  · rw [hrlC, hrfC]; exact hab
  · have hMl : rl ∈ ds.ratings.filter fun v => decide (v.bond_id = k.1) :=
      List.mem_filter.mpr ⟨hrlRat, by simpa using hrlB⟩
    have hMf : rf ∈ ds.ratings.filter fun v => decide (v.bond_id = k.1) :=
      List.mem_filter.mpr ⟨hrfRat, by simpa using hrfB⟩
    refine two_le_length_of_mem_ne hMl hMf ?_
    intro hEq
    have hcodes : a = bb := hrlC.symm.trans (by rw [hEq]; exact hrfC)
    exact hab hcodes

/-- A fixture for Q3: one bond whose rating moved from A to BBB. -/
def dsQ3 : Dataset :=
  ⟨[⟨"B1", "I1", none, none, ⟨2019, 1, 1⟩, ⟨2030, 1, 1⟩⟩], [],
   [⟨"I1", "Alpha", some "CA"⟩], [],
   [⟨"B1", "A", ⟨2020, 1, 1⟩⟩, ⟨"B1", "BBB", ⟨2023, 6, 1⟩⟩], []⟩

/-- The Q3 result row of the fixture. -/
def rowQ3 : Q3Row :=
  ⟨"B1", "Alpha", some "CA", some "BBB", some "A", some (Date.days ⟨2023, 6, 1⟩)⟩

/-- Witness for `q3_rows_rating_changed` at the fixture. -/
theorem q3_rows_rating_changed_witness :
    ∃ rl rf, rl ∈ dsQ3.ratings ∧ rl.bond_id = rowQ3.bond_id ∧
      rf ∈ dsQ3.ratings ∧ rf.bond_id = rowQ3.bond_id ∧
      (∀ v ∈ dsQ3.ratings, v.bond_id = rowQ3.bond_id →
        v.rating_date.days ≤ rl.rating_date.days) ∧
      (∀ v ∈ dsQ3.ratings, v.bond_id = rowQ3.bond_id →
        rf.rating_date.days ≤ v.rating_date.days) ∧
      rowQ3.latest_rating = some rl.rating_code ∧
      rowQ3.first_rating = some rf.rating_code ∧
      rl.rating_code ≠ rf.rating_code ∧
      2 ≤ (dsQ3.ratings.filter fun v => decide (v.bond_id = rowQ3.bond_id)).length :=
  q3_rows_rating_changed optsFix [] 50 dsQ3 rowQ3 (by decide)

/-! ## Q4 and the fallback's monthly trend (claim C1)

`q4_exec` is the semantics of the query `q4` builds. The spec asserts the
fallback path reproduces the same analyses from the locally loaded table;
`q4_fallback` is that spec-side aggregation (the monthly-trend instance)
over the table `load_visual_data` actually builds. The two share
`q4_pipeline`, the month-bucketed aggregation both descriptions perform,
so any difference comes from the rows fed in. -/

/-- A result row of Q4. `trade_month` is the (year, month) bucket rendered
by `TO_CHAR(.., 'YYYY-MM')`. -/
structure Q4Row where
  trade_month : Nat × Nat
  trades_count : Nat
  total_quantity : Int
  avg_trade_price : Rat
  deriving DecidableEq

/-- The monthly aggregation of Q4 over (month, quantity, price) rows:
group by month, count, sum, rounded average, ordered chronologically
(lexicographic on (year, month), the order of the `YYYY-MM` strings),
truncated to the row limit. -/
def q4_pipeline (limit : Nat) (src : List ((Nat × Nat) × Int × Rat)) : List Q4Row :=
  let keys := (src.map Prod.fst).dedup
  let rows := keys.map fun m =>
    let grp := src.filter fun w => decide (w.1 = m)
    { trade_month := m,
      trades_count := grp.length,
      total_quantity := (grp.map fun w => w.2.1).sum,
      avg_trade_price := round2 ((grp.map fun w => w.2.2).sum / (grp.length : Rat)) }
  (isortBy (fun a b => decide (a.trade_month.1 < b.trade_month.1 ∨
    (a.trade_month.1 = b.trade_month.1 ∧ a.trade_month.2 ≤ b.trade_month.2))) rows).take
    limit

/-- A joined row of Q4's `FROM`/`WHERE` part. -/
structure Q4Src where
  trade : Trade
  bond : Bond
  issuer : Issuer
  deriving DecidableEq

/-- Q4's joined and filtered source rows (trades x bonds x issuers with
the date range and state predicates). -/
def q4_joined (opts states : List String) (start stop : Date) (ds : Dataset) :
    List Q4Src :=
  ds.trades.flatMap fun t =>
    (ds.bonds.filter fun b => decide (b.bond_id = t.bond_id)).flatMap fun b =>
      (ds.issuers.filter fun i => decide (i.issuer_id = b.issuer_id)).filterMap fun i =>
        if Date.le start t.trade_date && Date.le t.trade_date stop &&
            statePred opts states i.state_code then some ⟨t, b, i⟩ else none

/-- The semantics of the query `q4` builds. -/
def q4_exec (opts states : List String) (start stop : Date) (limit : Nat)
    (ds : Dataset) : List Q4Row :=
  q4_pipeline limit ((q4_joined opts states start stop ds).map fun w =>
    (w.trade.trade_date.monthKey, w.trade.quantity, w.trade.price))

/-- The fallback monthly-trend analysis, following the spec's words: the
fallback aggregator, "given the same FilterSet, reproduces each of the five
analyses by loading whole tables into memory and performing equivalent
relational joins/group-bys ... locally". It applies the FilterSet's
predicates to the table `load_visual_data` builds (the source's fallback
data layer) and runs the same monthly aggregation as Q4. -/
def q4_fallback (opts states : List String) (start stop : Date) (limit : Nat)
    (ds : Dataset) : List Q4Row :=
  q4_pipeline limit (((load_visual_data ds).filter fun r =>
    Date.le start r.trade.trade_date && Date.le r.trade.trade_date stop &&
      statePred opts states r.state_code).map fun r =>
    (r.trade.trade_date.monthKey, r.trade.quantity, r.trade.price))

/-- The left merge of a singleton match list. -/
theorem optMatches_singleton {β : Type _} (a : β) : optMatches [a] = [some a] := by
  simp [optMatches]

/-- A list pairwise-distinct on bond ids has at most one row per bond. -/
theorem length_filter_le_one_of_pairwise_ne (l : List CreditRating) (k : String)
    (hp : l.Pairwise fun a b => a.bond_id ≠ b.bond_id) :
    (l.filter fun r => decide (r.bond_id = k)).length ≤ 1 := by
  induction l with
  | nil => simp
  | cons x t ih =>
    have hpt := List.pairwise_cons.mp hp
    by_cases hx : x.bond_id = k
    · rw [@List.filter_cons_of_pos _ (fun r => decide (r.bond_id = k)) x t
        (by simpa using hx)]
      have hnil : t.filter (fun r => decide (r.bond_id = k)) = [] := by
        rw [List.filter_eq_nil_iff]
        intro y hy
        simp only [decide_eq_true_eq]
        intro hyk
        exact (hpt.1 y hy) (hx.trans hyk.symm)
      rw [hnil]
      simp
    · rw [@List.filter_cons_of_neg _ (fun r => decide (r.bond_id = k)) x t
        (by simpa using hx)]
      exact ih hpt.2

/-- The fallback's latest-rating table has at most one entry per bond. -/
theorem latest_filter_len_le_one (ratings : List CreditRating) (k : String) :
    ((latestPerBond ratings).filter fun e => decide (e.1 = k)).length ≤ 1 := by
  have hpw := lastOfRuns_pairwise
    (sorted_isortBy ratingKeyLe ratingKeyLe_tot ratingKeyLe_trans ratings)
  rw [latestPerBond, List.filter_map]
  rw [List.length_map]
  exact length_filter_le_one_of_pairwise_ne _ k hpw

/-- A list of length at most one is empty or a singleton. -/
theorem length_le_one_cases {α : Type _} {l : List α} (h : l.length ≤ 1) :
    l = [] ∨ ∃ a, l = [a] := by
  cases l with
  | nil => exact Or.inl rfl
  | cons x t =>
    cases t with
    | nil => exact Or.inr ⟨x, rfl⟩
    | cons y u => simp at h

/-- The left merge of an at-most-one match list is a single row. -/
theorem optMatches_of_len_le_one {β : Type _} {l : List β} (h : l.length ≤ 1) :
    ∃ o, optMatches l = [o] := by
  rcases length_le_one_cases h with rfl | ⟨a, rfl⟩
  · exact ⟨none, rfl⟩
  · exact ⟨some a, optMatches_singleton a⟩

/-- Under unique bond and issuer matches and a surviving maturity filter,
one trade contributes the same single (month, quantity, price) row to the
live Q4 source and to the filtered fallback table. -/
theorem q4_per_trade (opts states : List String) (start stop : Date) (ds : Dataset)
    (t : Trade) {b : Bond} {i : Issuer}
    (hbf : ds.bonds.filter (fun x => decide (x.bond_id = t.bond_id)) = [b])
    (hif : ds.issuers.filter (fun x => decide (x.issuer_id = b.issuer_id)) = [i])
    (h0 : 0 ≤ ttmOf b t) (h40 : ttmOf b t ≤ 40)
    (hplen : (ds.purposes.filter fun p =>
      decide (b.purpose_id = some p.purpose_id)).length ≤ 1) :
    (((ds.bonds.filter fun x => decide (x.bond_id = t.bond_id)).flatMap fun b' =>
        (ds.issuers.filter fun x => decide (x.issuer_id = b'.issuer_id)).filterMap fun i' =>
          if Date.le start t.trade_date && Date.le t.trade_date stop &&
              statePred opts states i'.state_code then some (⟨t, b', i'⟩ : Q4Src)
          else none).map fun w =>
        (w.trade.trade_date.monthKey, w.trade.quantity, w.trade.price)) =
      ((((mergeTrade ds (latestPerBond ds.ratings) t).filter fun r =>
          match r.time_to_maturity_years with
          | some v => decide (0 ≤ v ∧ v ≤ 40)
          | none => false).filter fun r =>
          Date.le start r.trade.trade_date && Date.le r.trade.trade_date stop &&
            statePred opts states r.state_code).map fun r =>
        (r.trade.trade_date.monthKey, r.trade.quantity, r.trade.price)) := by
  have hifm : (ds.issuers.filter fun x =>
      decide ((some b.issuer_id : Option String) = some x.issuer_id)) = [i] := by
    rw [← hif]
    apply List.filter_congr
    intro x _
    rw [decide_eq_decide]
    simp [eq_comm]
  obtain ⟨ol, hL⟩ := optMatches_of_len_le_one
    (latest_filter_len_le_one ds.ratings t.bond_id)
  obtain ⟨op, hP⟩ := optMatches_of_len_le_one hplen
  rw [hbf, mergeTrade, hbf, optMatches_singleton]
  simp only [List.flatMap_cons, List.flatMap_nil, List.append_nil, Option.map_some',
    Option.some_bind]
  rw [hifm, optMatches_singleton]
  simp only [List.flatMap_cons, List.flatMap_nil, List.append_nil]
  rw [hL, hP]
  simp only [List.flatMap_cons, List.flatMap_nil, List.append_nil, List.map_cons,
    List.map_nil, Option.some_bind]
  rw [hif]
  by_cases h1 : Date.le start t.trade_date = true <;>
    by_cases h2 : Date.le t.trade_date stop = true <;>
      by_cases h3 : statePred opts states i.state_code = true <;>
        simp [h0, h40, h1, h2, h3]

/-- C1, counterexample: the fixture's only trade is on a bond whose
maturity precedes the trade date, so the fallback table drops it
(`time_to_maturity_years < 0` fails `between(0, 40)`), while the live Q4
counts it: for the full date range and no state filter the two monthly
trends differ. The fallback path therefore does not reproduce the live
analyses' result set. -/
def dsC1 : Dataset :=
  ⟨[⟨"B1", "I1", none, none, ⟨2023, 1, 1⟩, ⟨2024, 1, 1⟩⟩],
   [⟨"B1", ⟨2024, 5, 10⟩, 100, 10, 3, "retail"⟩],
   [⟨"I1", "Alpha", some "CA"⟩], [], [], []⟩

unseal Rat.mul Rat.inv Rat.add Rat.sub in
/-- C1, counterexample theorem: live Q4 and the fallback monthly trend
disagree on `dsC1` for the same FilterSet. -/
theorem q4_fallback_differs :
    q4_exec optsFix [] ⟨2024, 1, 1⟩ ⟨2024, 12, 31⟩ 50 dsC1 ≠
      q4_fallback optsFix [] ⟨2024, 1, 1⟩ ⟨2024, 12, 31⟩ 50 dsC1 := by decide

/-- C1, amended: the fallback path does not recompute the five analyses as
result sets; it builds one merged trade-level table restricted by the
maturity filter. For the monthly-trend analysis, the spec's equivalent
aggregation over that table (`q4_fallback`) agrees with the live `q4`
semantics exactly when every trade matches a unique bond and a unique
issuer, survives the time-to-maturity filter, and has at most one purpose
match (so the left merges do not multiply rows). -/
theorem q4_fallback_agrees (opts states : List String) (start stop : Date)
    (limit : Nat) (ds : Dataset)
    (h : ∀ t ∈ ds.trades, ∃ b i,
      ds.bonds.filter (fun x => decide (x.bond_id = t.bond_id)) = [b] ∧
      ds.issuers.filter (fun x => decide (x.issuer_id = b.issuer_id)) = [i] ∧
      0 ≤ ttmOf b t ∧ ttmOf b t ≤ 40 ∧
      (ds.purposes.filter fun p =>
        decide (b.purpose_id = some p.purpose_id)).length ≤ 1) :
    q4_exec opts states start stop limit ds =
      q4_fallback opts states start stop limit ds := by
  rw [q4_exec, q4_fallback]
  congr 1
  rw [q4_joined, load_visual_data]
  rw [List.map_flatMap, List.filter_flatMap, List.filter_flatMap, List.map_flatMap]
  apply List.flatMap_congr
  intro t ht
  obtain ⟨b, i, hbf, hif, h0, h40, hplen⟩ := h t ht
  exact q4_per_trade opts states start stop ds t hbf hif h0 h40 hplen

unseal Rat.mul Rat.inv Rat.add Rat.sub in
/-- Witness for `q4_fallback_agrees`: on the well-matched fixture the two
monthly trends coincide. -/
theorem q4_fallback_agrees_witness :
    q4_exec optsFix [] ⟨2024, 1, 1⟩ ⟨2024, 12, 31⟩ 50 dsQ2 =
      q4_fallback optsFix [] ⟨2024, 1, 1⟩ ⟨2024, 12, 31⟩ 50 dsQ2 :=
  q4_fallback_agrees optsFix [] ⟨2024, 1, 1⟩ ⟨2024, 12, 31⟩ 50 dsQ2 (by
    intro t ht
    have ht' : t = ⟨"B1", ⟨2024, 5, 10⟩, 100, 150, 3, "retail"⟩ :=
      List.mem_singleton.mp ht
    subst ht'
    exact ⟨⟨"B1", "I1", none, none, ⟨2019, 1, 1⟩, ⟨2030, 1, 1⟩⟩,
      ⟨"I1", "Alpha", some "CA"⟩, by decide, by decide, by decide, by decide,
      by decide⟩)

end Gator
